import Mathlib

/-!
Shallow embedding of the Bakery repository's `Hashmap` class (TypeScript).

Strings: keys and values are strings in the source; a key enters the hash
only through its UTF-16 code units (`charCodeAt`), and keys/values are
otherwise used only through equality and storage, so both are modelled as
lists of code units (`List Nat`).

JS numbers are IEEE-754 doubles.  In the hash loop, `hash ^= c` coerces both
operands with ToInt32 and xors the 32-bit patterns, `hash *= FNV_PRIME`
multiplies exactly as reals and then rounds the product to the nearest
representable double (ties to even; the products reach magnitude about 2^55,
above the 2^53 exact-integer range, so this rounding is observable), and
`hash >>> 0` is ToUint32.  `roundDouble` models the rounding for every
magnitude below 2^56, which covers all products that can occur (|int32| *
16777619 < 2^55).

The load-factor tests `count / size > 0.7` and `count / size < 0.4` are
modelled by the exact rational comparisons `10*count > 7*size` and
`10*count < 4*size`.  The double nearest 0.7 is strictly below 7/10 and the
double nearest 0.4 is strictly above 2/5, and `count / size` rounds to the
same double as the literal exactly when the rational values coincide, so the
float and rational comparisons agree for every count and size that fit well
inside 2^49; all reachable states here are far below that.
`Math.ceil(size * 0.5)` is exact for size < 2^53 and is modelled as
`(size + 1) / 2` in Nat arithmetic.

The bucket array is a JS array that `#getBucket` may extend by assignment at
an index beyond its length (possible because `clear()` rebuilds only 4
buckets without resetting `#size`); the skipped slots become holes.  It is
modelled as `List (Option Bucket)` with `none` for a hole.  `for (const
bucket of oldBuckets)` inside `#resize` yields `undefined` for a hole and
the inner `for...of` then throws a TypeError; the model returns
`Except.error JsErr.typeError` there.  Because `setItem` and `#resize` are
mutually recursive through the load-factor checks, the operations take a
fuel parameter and return `Except.error JsErr.outOfFuel` when it runs out;
every recursive call decreases the fuel by one.

A ghost field `resizeLog` records, in order, the `newSize` argument of every
`#resize` invocation (the source logs the same information to the console);
it influences nothing else and makes resize behaviour observable.
-/

namespace Bakery

/-- ToInt32 of a 32-bit pattern: reinterpret a Nat below 2^32 as a signed
32-bit value. -/
def jsToInt32 (n : Nat) : Int :=
  let m : Nat := n % 2 ^ 32
  if m < 2 ^ 31 then (m : Int) else (m : Int) - 2 ^ 32

/-- Exponent of the unit in the last place of a double holding an integer of
the given magnitude (integers below 2^53 are exact). -/
def ulpExp (m : Int) : Nat :=
  if m.natAbs < 2 ^ 53 then 0
  else if m.natAbs < 2 ^ 54 then 1
  else if m.natAbs < 2 ^ 55 then 2
  else 3

/-- Round an integer to the nearest multiple of 2^k, ties to the even
multiple. -/
def roundHalfEven (m : Int) (k : Nat) : Int :=
  let u : Int := (2 : Int) ^ k
  let q := Int.ediv m u
  let r := Int.emod m u
  if 2 * r < u then q * u
  else if 2 * r > u then (q + 1) * u
  else if Int.emod q 2 = 0 then q * u else (q + 1) * u

/-- Round an integer (of magnitude below 2^56) to the nearest IEEE-754
double, which is what storing a JS multiplication result does. -/
def roundDouble (m : Int) : Int := roundHalfEven m (ulpExp m)

/-- A key or value: the list of UTF-16 code units of the source string. -/
abbrev Key := List Nat

abbrev Value := List Nat

/-- One step of the source hash loop on the running uint32 value `h` and the
code unit `c`: `hash ^= c; hash *= 16777619; hash = hash >>> 0`. -/
def jsHashStep (h c : Nat) : Nat :=
  (Int.emod (roundDouble (jsToInt32 (h ^^^ c) * 16777619)) (2 ^ 32)).toNat

/-- `Hashmap.#hash` before the final modulo: FNV-1a offset basis folded over
the code units with the JS double-precision step. -/
def jsHash (key : Key) : Nat := key.foldl jsHashStep 2166136261

/-- Exact 32-bit FNV-1a, written from the specification text: xor with the
code unit, multiply by the prime, reduce mod 2^32, all in exact integer
arithmetic. -/
def fnv1a32 (key : Key) : Nat :=
  key.foldl (fun h c => ((h ^^^ c) * 16777619) % 2 ^ 32) 2166136261

/-- The bucket index returned by `Hashmap.#hash`: the 32-bit hash reduced
modulo the table size. -/
def bucketIdx (size : Nat) (key : Key) : Nat := jsHash key % size

/-- A bucket: the ordered list of (key, value) pairs stored at one index. -/
abbrev Bucket := List (Key × Value)

/-- The error outcomes of a fueled operation: `typeError` models the JS
TypeError thrown when `#resize` iterates a hole of a sparse bucket array;
`outOfFuel` only signals that the recursion allowance ran out. -/
inductive JsErr where
  | typeError : JsErr
  | outOfFuel : JsErr
deriving DecidableEq

/-- The private state of a `Hashmap` instance: `#size`, `#buckets` (a JS
array whose holes are `none`), `#count`, plus the ghost `resizeLog`. -/
structure Hashmap where
  size : Nat
  buckets : List (Option Bucket)
  count : Int
  resizeLog : List Nat
deriving DecidableEq

/-- Result of a fueled mutating operation. -/
abbrev Res := Except JsErr Hashmap

namespace Hashmap

/-- `#initialSize = 4`. -/
def initialSize : Nat := 4

/-- `new Hashmap(size)` for a nonnegative argument: `this.#size = size ||
this.#initialSize` (0 is falsy and falls back to 4), then `#new` builds that
many empty buckets and resets the count. -/
def construct (n : Nat) : Hashmap :=
  let sz := if n = 0 then initialSize else n
  { size := sz, buckets := List.replicate sz (some []), count := 0, resizeLog := [] }

/-- Reading `a[i]` of a JS array: the element in range (`none` for a hole),
undefined (`none`) out of range. -/
def slotAt (l : List (Option Bucket)) (i : Nat) : Option Bucket :=
  l.getD i none

/-- JS assignment `a[i] = []` on a bucket array: in range it overwrites; past
the end it extends the array to length i+1, creating holes for the skipped
slots. -/
def setIdx (l : List (Option Bucket)) (i : Nat) : List (Option Bucket) :=
  if i < l.length then l.set i (some [])
  else l ++ List.replicate (i - l.length) none ++ [some []]

/-- `Hashmap.#getBucket`: compute the bucket index; if the slot holds no
bucket (hole or out of range, both read as undefined), assign a fresh empty
bucket there.  Returns the possibly-extended state and the index. -/
def ensure (s : Hashmap) (k : Key) : Hashmap × Nat :=
  match slotAt s.buckets (bucketIdx s.size k) with
  | some _ => (s, bucketIdx s.size k)
  | none =>
    ({ s with buckets := setIdx s.buckets (bucketIdx s.size k) },
      bucketIdx s.size k)

/-- The linear scan of `getItem`: first entry with an equal key. -/
def lookupB : Bucket → Key → Option Value
  | [], _ => none
  | (k', v') :: t, k => if k' = k then some v' else lookupB t k

/-- The replace branch of `setItem`: overwrite the first entry with an equal
key in place; `none` when the key is absent. -/
def replaceB : Bucket → Key → Value → Option Bucket
  | [], _, _ => none
  | (k', v') :: t, k, v =>
    if k' = k then some ((k, v) :: t)
    else
      match replaceB t k v with
      | some t' => some ((k', v') :: t')
      | none => none

/-- The `splice(i, 1)` of `removeItem`: drop the first entry with an equal
key, keeping the rest in order; `none` when the key is absent. -/
def removeFirstB : Bucket → Key → Option Bucket
  | [], _ => none
  | (k', v') :: t, k =>
    if k' = k then some t
    else
      match removeFirstB t k with
      | some t' => some ((k', v') :: t')
      | none => none

mutual

/-- `setItem(keyName, keyValue)`: locate (and if needed allocate) the
bucket; replace in place if the key exists, else append the entry, increment
the count and run the grow check. -/
def setItem : Nat → Hashmap → Key → Value → Res
  | 0, _, _, _ => .error .outOfFuel
  | fuel + 1, s, k, v =>
    let p := ensure s k
    let b := (slotAt p.1.buckets p.2).getD []
    match replaceB b k v with
    | some b' => .ok { p.1 with buckets := p.1.buckets.set p.2 (some b') }
    | none =>
      checkLoadFactor fuel
        { p.1 with
          buckets := p.1.buckets.set p.2 (some (b ++ [(k, v)])),
          count := p.1.count + 1 }

/-- `#checkLoadFactor`: grow to double the size when `count / size > 0.7`. -/
def checkLoadFactor : Nat → Hashmap → Res
  | 0, _ => .error .outOfFuel
  | fuel + 1, s =>
    if 10 * s.count > 7 * (s.size : Int) then resize fuel s (2 * s.size)
    else .ok s

/-- `#checkUnderLoadFactor`: shrink to `ceil(size * 0.5)` when `count / size
< 0.4` and `size > 10`. -/
def checkUnderLoadFactor : Nat → Hashmap → Res
  | 0, _ => .error .outOfFuel
  | fuel + 1, s =>
    if 10 * s.count < 4 * (s.size : Int) ∧ 10 < s.size then
      resize fuel s ((s.size + 1) / 2)
    else .ok s

/-- `#resize(newSize)`: snapshot the old buckets, install a fresh table of
`newSize` empty buckets with count 0 (via `#new`), then re-insert every
entry of the snapshot through `setItem`.  Iterating a hole of the snapshot
throws.  The ghost log records `newSize`. -/
def resize : Nat → Hashmap → Nat → Res
  | 0, _, _ => .error .outOfFuel
  | fuel + 1, s, n =>
    reinsertAll fuel
      { size := n, buckets := List.replicate n (some []), count := 0,
        resizeLog := s.resizeLog ++ [n] }
      s.buckets

/-- The outer rehash loop `for (const bucket of oldBuckets)`: a hole is
yielded as undefined and the inner loop over it throws a TypeError. -/
def reinsertAll : Nat → Hashmap → List (Option Bucket) → Res
  | 0, _, _ => .error .outOfFuel
  | _ + 1, s, [] => .ok s
  | _ + 1, _, none :: _ => .error .typeError
  | fuel + 1, s, some b :: rest =>
    match reinsertBucket fuel s b with
    | .ok s' => reinsertAll fuel s' rest
    | .error e => .error e

/-- The inner rehash loop `for (const [key, value] of bucket)`. -/
def reinsertBucket : Nat → Hashmap → Bucket → Res
  | 0, _, _ => .error .outOfFuel
  | _ + 1, s, [] => .ok s
  | fuel + 1, s, (k, v) :: rest =>
    match setItem fuel s k v with
    | .ok s' => reinsertBucket fuel s' rest
    | .error e => .error e

end

/-- `getItem(keyName)`: locate (and if needed allocate) the bucket and scan
it; returns the value or null together with the resulting state (the lazy
allocation in `#getBucket` can mutate the bucket array). -/
def getItem (s : Hashmap) (k : Key) : Option Value × Hashmap :=
  let p := ensure s k
  (lookupB ((slotAt p.1.buckets p.2).getD []) k, p.1)

/-- `removeItem(keyName)`: locate (and if needed allocate) the bucket; if
the key is found, splice it out, decrement the count and run the shrink
check; otherwise do nothing further. -/
def removeItem : Nat → Hashmap → Key → Res
  | 0, _, _ => .error .outOfFuel
  | fuel + 1, s, k =>
    let p := ensure s k
    let b := (slotAt p.1.buckets p.2).getD []
    match removeFirstB b k with
    | none => .ok p.1
    | some b' =>
      checkUnderLoadFactor fuel
        { p.1 with
          buckets := p.1.buckets.set p.2 (some b'),
          count := p.1.count - 1 }

/-- `clear()`: `this.#buckets = this.#new(this.#initialSize)` — rebuilds 4
empty buckets and (inside `#new`) resets the count; `#size` is untouched. -/
def clear (s : Hashmap) : Hashmap :=
  { s with buckets := List.replicate initialSize (some []), count := 0 }

/-- `keyExists(keyName)`: true iff `getItem` returns non-null; shares its
state effect. -/
def keyExists (s : Hashmap) (k : Key) : Bool × Hashmap :=
  let p := getItem s k
  (p.1.isSome, p.2)

/-- `keys()`: `this.#buckets.flat().map(([key]) => key)`; `flat` skips
holes. -/
def keys (s : Hashmap) : List Key :=
  ((s.buckets.filterMap id).flatten).map Prod.fst

/-- The bucket stored at index i, an empty list for holes and out-of-range
slots. -/
def bucketAt (s : Hashmap) (i : Nat) : Bucket := (slotAt s.buckets i).getD []

/-- Total number of entries over all buckets (holes hold none). -/
def totalCount (l : List (Option Bucket)) : Nat :=
  (l.map (fun ob => (ob.getD []).length)).sum

/-- The key-value mapping a state denotes: scan the bucket the key hashes
to.  Agrees with the value component of `getItem`. -/
def findVal (s : Hashmap) (k : Key) : Option Value :=
  lookupB (bucketAt s (bucketIdx s.size k)) k

/-- Structural well-formedness: positive size, accurate count, every entry
in the bucket its key hashes to, and no duplicate key inside a bucket. -/
def Inv0 (s : Hashmap) : Prop :=
  1 ≤ s.size ∧
  s.count = (totalCount s.buckets : Int) ∧
  (∀ i < s.buckets.length, ∀ e ∈ bucketAt s i, bucketIdx s.size e.1 = i) ∧
  (∀ i < s.buckets.length, (bucketAt s i).Pairwise (fun e e' => e.1 ≠ e'.1))

/-- The stable load-factor band the resize policy maintains. -/
def Band (s : Hashmap) : Prop := 10 * s.count ≤ 7 * (s.size : Int)

/-- Full invariant of publicly observable states. -/
def Inv (s : Hashmap) : Prop := Inv0 s ∧ Band s

/-- The states reachable from construction through the public interface
(`keys` does not mutate; `keyExists` has the state effect of `getItem`). -/
inductive Reachable : Hashmap → Prop where
  | construct : ∀ n : Nat, Reachable (construct n)
  | set : ∀ {s s' : Hashmap} {f : Nat} {k : Key} {v : Value},
      Reachable s → setItem f s k v = .ok s' → Reachable s'
  | get : ∀ {s : Hashmap} (k : Key), Reachable s → Reachable (getItem s k).2
  | remove : ∀ {s s' : Hashmap} {f : Nat} {k : Key},
      Reachable s → removeItem f s k = .ok s' → Reachable s'
  | clear : ∀ {s : Hashmap}, Reachable s → Reachable (clear s)

/-- Entries of a bucket array in order, holes contributing nothing. -/
def flattenB (l : List (Option Bucket)) : List (Key × Value) :=
  (l.map (fun ob => ob.getD [])).flatten

/-- Point update of a key-value mapping. -/
def upd (m : Key → Option Value) (k : Key) (v : Value) : Key → Option Value :=
  fun q => if q = k then some v else m q

/-- Left-to-right application of a list of entries to a mapping (later
entries win, matching repeated `setItem`). -/
def applyEntries (m : Key → Option Value) (es : List (Key × Value)) :
    Key → Option Value :=
  es.foldl (fun acc e => upd acc e.1 e.2) m

/-! Basic facts about the bucket scans. -/

lemma lookupB_eq_none_iff (b : Bucket) (k : Key) :
    lookupB b k = none ↔ ∀ e ∈ b, e.1 ≠ k := by
  induction b with
  | nil => simp [lookupB]
  | cons e t ih =>
    obtain ⟨k', v'⟩ := e
    by_cases h : k' = k <;> simp [lookupB, h, ih]

lemma lookupB_mem {b : Bucket} {k : Key} {v : Value} (h : lookupB b k = some v) :
    (k, v) ∈ b := by
  induction b with
  | nil => simp [lookupB] at h
  | cons e t ih =>
    obtain ⟨k', v'⟩ := e
    by_cases hk : k' = k
    · simp [lookupB, hk] at h
      simp [hk, h]
    · simp [lookupB, hk] at h
      exact List.mem_cons_of_mem _ (ih h)

lemma lookupB_append_none {b1 b2 : Bucket} {k : Key} (h : lookupB b1 k = none) :
    lookupB (b1 ++ b2) k = lookupB b2 k := by
  induction b1 with
  | nil => simp
  | cons e t ih =>
    obtain ⟨k', v'⟩ := e
    by_cases hk : k' = k
    · simp [lookupB, hk] at h
    · simp [lookupB, hk] at h ⊢
      exact ih h

lemma lookupB_append_some {b1 b2 : Bucket} {k : Key} {v : Value}
    (h : lookupB b1 k = some v) : lookupB (b1 ++ b2) k = some v := by
  induction b1 with
  | nil => simp [lookupB] at h
  | cons e t ih =>
    obtain ⟨k', v'⟩ := e
    by_cases hk : k' = k
    · simp [lookupB, hk] at h ⊢
      exact h
    · simp [lookupB, hk] at h ⊢
      exact ih h

lemma replaceB_none_iff (b : Bucket) (k : Key) (v : Value) :
    replaceB b k v = none ↔ lookupB b k = none := by
  induction b with
  | nil => simp [replaceB, lookupB]
  | cons e t ih =>
    obtain ⟨k', v'⟩ := e
    by_cases hk : k' = k
    · simp [replaceB, lookupB, hk]
    · simp only [replaceB, lookupB, if_neg hk]
      rw [← ih]
      cases replaceB t k v <;> simp

lemma replaceB_some_spec {b b' : Bucket} {k : Key} {v : Value}
    (h : replaceB b k v = some b') :
    b'.map Prod.fst = b.map Prod.fst ∧ lookupB b' k = some v ∧
    ∀ q, q ≠ k → lookupB b' q = lookupB b q := by
  induction b generalizing b' with
  | nil => simp [replaceB] at h
  | cons e t ih =>
    obtain ⟨k', v'⟩ := e
    by_cases hk : k' = k
    · simp only [replaceB, if_pos hk] at h
      cases h
      refine ⟨by simp [hk], by simp [lookupB], fun q hq => ?_⟩
      have h1 : k ≠ q := fun hh => hq hh.symm
      have h2 : k' ≠ q := by rw [hk]; exact h1
      simp [lookupB, h1, h2]
    · simp only [replaceB, if_neg hk] at h
      cases ht : replaceB t k v with
      | none => rw [ht] at h; simp at h
      | some t' =>
        rw [ht] at h
        cases h
        obtain ⟨hm, hl, ho⟩ := ih ht
        refine ⟨by simp [hm], by simp [lookupB, hk, hl], fun q hq => ?_⟩
        by_cases hq' : k' = q <;> simp [lookupB, hq', ho q hq]

lemma removeFirstB_of_lookupB {b : Bucket} {k : Key} {v : Value}
    (h : lookupB b k = some v) : ∃ b', removeFirstB b k = some b' := by
  induction b with
  | nil => simp [lookupB] at h
  | cons e t ih =>
    obtain ⟨k', v'⟩ := e
    by_cases hk : k' = k
    · exact ⟨t, by simp [removeFirstB, hk]⟩
    · simp [lookupB, hk] at h
      obtain ⟨t', ht⟩ := ih h
      exact ⟨(k', v') :: t', by simp [removeFirstB, hk, ht]⟩

lemma removeFirstB_sublist {b b' : Bucket} {k : Key}
    (h : removeFirstB b k = some b') : b'.Sublist b := by
  induction b generalizing b' with
  | nil => simp [removeFirstB] at h
  | cons e t ih =>
    obtain ⟨k', v'⟩ := e
    by_cases hk : k' = k
    · simp only [removeFirstB, if_pos hk] at h
      cases h
      exact List.sublist_cons_self _ _
    · simp only [removeFirstB, if_neg hk] at h
      cases ht : removeFirstB t k with
      | none => rw [ht] at h; simp at h
      | some t' =>
        rw [ht] at h
        cases h
        exact List.Sublist.cons₂ _ (ih ht)

lemma removeFirstB_length {b b' : Bucket} {k : Key}
    (h : removeFirstB b k = some b') : b'.length + 1 = b.length := by
  induction b generalizing b' with
  | nil => simp [removeFirstB] at h
  | cons e t ih =>
    obtain ⟨k', v'⟩ := e
    by_cases hk : k' = k
    · simp only [removeFirstB, if_pos hk] at h
      cases h
      simp
    · simp only [removeFirstB, if_neg hk] at h
      cases ht : removeFirstB t k with
      | none => rw [ht] at h; simp at h
      | some t' =>
        rw [ht] at h
        cases h
        simp [← ih ht]

/-! Facts about reading, writing and extending the bucket array. -/

lemma slotAt_of_le {l : List (Option Bucket)} {i : Nat}
    (h : l.length ≤ i) : slotAt l i = none := by
  simp [slotAt, List.getD_eq_getElem?_getD, List.getElem?_eq_none h]

lemma lt_of_slotAt_some {l : List (Option Bucket)} {i : Nat} {b : Bucket}
    (h : slotAt l i = some b) : i < l.length := by
  by_contra hc
  rw [slotAt_of_le (Nat.le_of_not_lt hc)] at h
  exact Option.noConfusion h

lemma slotAt_set_self {l : List (Option Bucket)} {i : Nat} (a : Option Bucket)
    (h : i < l.length) : slotAt (l.set i a) i = a := by
  simp [slotAt, List.getD_eq_getElem?_getD, List.getElem?_set_self, h]

lemma slotAt_set_ne {l : List (Option Bucket)} {i j : Nat} (a : Option Bucket)
    (h : i ≠ j) : slotAt (l.set i a) j = slotAt l j := by
  simp [slotAt, List.getD_eq_getElem?_getD, List.getElem?_set_ne h]

lemma slotAt_replicate {n j : Nat} (a : Option Bucket) (h : j < n) :
    slotAt (List.replicate n a) j = a := by
  simp [slotAt, List.getD_eq_getElem?_getD, List.getElem?_replicate, h]

lemma length_setIdx (l : List (Option Bucket)) (i : Nat) :
    (setIdx l i).length = max l.length (i + 1) := by
  unfold setIdx
  split
  · simp; omega
  · simp; omega

lemma slotAt_setIdx_self (l : List (Option Bucket)) (i : Nat) :
    slotAt (setIdx l i) i = some [] := by
  unfold setIdx
  by_cases h : i < l.length
  · rw [if_pos h]
    exact slotAt_set_self _ h
  · rw [if_neg h]
    unfold slotAt
    rw [List.getD_eq_getElem?_getD, List.append_assoc,
      List.getElem?_append_right (Nat.le_of_not_lt h),
      List.getElem?_append_right (by simp)]
    simp

lemma slotAt_setIdx_ne (l : List (Option Bucket)) {i j : Nat} (h : i ≠ j) :
    slotAt (setIdx l i) j = slotAt l j := by
  unfold setIdx
  by_cases hl : i < l.length
  · rw [if_pos hl]
    exact slotAt_set_ne _ h
  · rw [if_neg hl]
    unfold slotAt
    rw [List.getD_eq_getElem?_getD, List.getD_eq_getElem?_getD,
      List.append_assoc, List.getElem?_append]
    by_cases hj : j < l.length
    · simp [hj]
    · rw [if_neg hj, List.getElem?_eq_none (Nat.le_of_not_lt hj)]
      rw [List.getElem?_append]
      simp only [List.length_replicate]
      by_cases hji : j - l.length < i - l.length
      · simp [hji, List.getElem?_replicate]
      · rw [if_neg hji, List.getElem?_eq_none (by simp; omega)]

lemma totalCount_cons (ob : Option Bucket) (t : List (Option Bucket)) :
    totalCount (ob :: t) = (ob.getD []).length + totalCount t := by
  simp [totalCount]

lemma totalCount_append (l1 l2 : List (Option Bucket)) :
    totalCount (l1 ++ l2) = totalCount l1 + totalCount l2 := by
  simp [totalCount]

lemma totalCount_replicate_none (n : Nat) :
    totalCount (List.replicate n (none : Option Bucket)) = 0 := by
  induction n with
  | zero => rfl
  | succ m ih => simpa [totalCount_cons, List.replicate_succ] using ih

lemma totalCount_replicate_empty (n : Nat) :
    totalCount (List.replicate n (some ([] : Bucket))) = 0 := by
  induction n with
  | zero => rfl
  | succ m ih => simpa [totalCount_cons, List.replicate_succ] using ih

lemma totalCount_set {l : List (Option Bucket)} {i : Nat} {b b' : Bucket}
    (hget : slotAt l i = some b) :
    totalCount (l.set i (some b')) + b.length = totalCount l + b'.length := by
  have hi := lt_of_slotAt_some hget
  unfold slotAt at hget
  induction l generalizing i with
  | nil => simp at hi
  | cons hd t ih =>
    cases i with
    | zero =>
      simp only [List.getD_cons_zero] at hget
      simp [totalCount_cons, hget]
      omega
    | succ m =>
      simp only [List.getD_cons_succ] at hget
      have := ih hget (by simpa using hi)
      simp only [List.set, totalCount_cons]
      omega

lemma totalCount_setIdx {l : List (Option Bucket)} {i : Nat}
    (h : slotAt l i = none) : totalCount (setIdx l i) = totalCount l := by
  unfold setIdx
  by_cases hl : i < l.length
  · rw [if_pos hl]
    unfold slotAt at h
    induction l generalizing i with
    | nil => simp at hl
    | cons hd t ih =>
      cases i with
      | zero =>
        simp only [List.getD_cons_zero] at h
        simp [totalCount_cons, h]
      | succ m =>
        simp only [List.getD_cons_succ] at h
        have := ih h (by simpa using hl)
        simp only [List.set, totalCount_cons]
        omega
  · rw [if_neg hl, totalCount_append, totalCount_append,
      totalCount_replicate_none]
    simp [totalCount]

lemma bucketAt_of_le {s : Hashmap} {i : Nat} (h : s.buckets.length ≤ i) :
    bucketAt s i = [] := by
  unfold bucketAt
  rw [slotAt_of_le h]
  rfl

/-! `#getBucket` (`ensure`) leaves every bucket's contents, the size, the
count and the log unchanged; it only guarantees that the target slot now
holds a bucket. -/

lemma ensure_idx (s : Hashmap) (k : Key) :
    (ensure s k).2 = bucketIdx s.size k := by
  unfold ensure
  split <;> rfl

lemma ensure_size (s : Hashmap) (k : Key) : (ensure s k).1.size = s.size := by
  unfold ensure
  split <;> rfl

lemma ensure_count (s : Hashmap) (k : Key) : (ensure s k).1.count = s.count := by
  unfold ensure
  split <;> rfl

lemma ensure_log (s : Hashmap) (k : Key) :
    (ensure s k).1.resizeLog = s.resizeLog := by
  unfold ensure
  split <;> rfl

lemma ensure_bucketAt (s : Hashmap) (k : Key) (j : Nat) :
    bucketAt (ensure s k).1 j = bucketAt s j := by
  unfold ensure
  split
  · rfl
  · rename_i hg
    unfold bucketAt
    by_cases hj : bucketIdx s.size k = j
    · subst hj
      simp only
      rw [slotAt_setIdx_self, hg]
      rfl
    · simp only
      rw [slotAt_setIdx_ne _ hj]

lemma ensure_totalCount (s : Hashmap) (k : Key) :
    totalCount (ensure s k).1.buckets = totalCount s.buckets := by
  unfold ensure
  split
  · rfl
  · rename_i hg
    simpa using totalCount_setIdx hg

lemma ensure_slot (s : Hashmap) (k : Key) :
    slotAt (ensure s k).1.buckets (bucketIdx s.size k)
      = some (bucketAt s (bucketIdx s.size k)) := by
  unfold ensure
  split
  · rename_i b hg
    simp [bucketAt, hg]
  · rename_i hg
    simp only [bucketAt, hg]
    simpa using slotAt_setIdx_self s.buckets (bucketIdx s.size k)

lemma ensure_idx_lt (s : Hashmap) (k : Key) :
    bucketIdx s.size k < (ensure s k).1.buckets.length := by
  unfold ensure
  split
  · rename_i b hg
    simpa using lt_of_slotAt_some hg
  · simp [length_setIdx]

lemma ensure_length_le (s : Hashmap) (k : Key) :
    s.buckets.length ≤ (ensure s k).1.buckets.length := by
  unfold ensure
  split
  · simp
  · simp [length_setIdx]

/-! The flattened entry list of a bucket array, and sequential entry
application. -/

lemma flattenB_nil : flattenB [] = [] := rfl

lemma flattenB_cons (ob : Option Bucket) (l : List (Option Bucket)) :
    flattenB (ob :: l) = ob.getD [] ++ flattenB l := by
  simp [flattenB]

lemma applyEntries_cons (m : Key → Option Value) (e : Key × Value)
    (es : List (Key × Value)) :
    applyEntries m (e :: es) = applyEntries (upd m e.1 e.2) es := rfl

lemma applyEntries_append (m : Key → Option Value)
    (es1 es2 : List (Key × Value)) :
    applyEntries m (es1 ++ es2) = applyEntries (applyEntries m es1) es2 := by
  simp [applyEntries, List.foldl_append]

lemma applyEntries_base {m1 m2 : Key → Option Value}
    (es : List (Key × Value)) (k : Key) (h : m1 k = m2 k) :
    applyEntries m1 es k = applyEntries m2 es k := by
  induction es generalizing m1 m2 with
  | nil => exact h
  | cons e t ih =>
    rw [applyEntries_cons, applyEntries_cons]
    refine ih ?_
    unfold upd
    by_cases hk : k = e.1 <;> simp [hk, h]

lemma applyEntries_not_mem {es : List (Key × Value)} {k : Key}
    (m : Key → Option Value) (h : ∀ e ∈ es, e.1 ≠ k) :
    applyEntries m es k = m k := by
  induction es generalizing m with
  | nil => rfl
  | cons e t ih =>
    rw [applyEntries_cons]
    rw [ih _ (fun e' he' => h e' (List.mem_cons_of_mem _ he'))]
    unfold upd
    have hne : k ≠ e.1 := fun hh => (h e (List.mem_cons_self _ _)) hh.symm
    simp [hne]

lemma applyEntries_nodup {es : List (Key × Value)} (k : Key)
    (h : es.Pairwise (fun e e' => e.1 ≠ e'.1)) :
    applyEntries (fun _ => none) es k = lookupB es k := by
  induction es with
  | nil => rfl
  | cons e t ih =>
    obtain ⟨k0, v0⟩ := e
    rw [applyEntries_cons]
    rcases List.pairwise_cons.mp h with ⟨hhead, htail⟩
    by_cases hk : k0 = k
    · subst hk
      rw [applyEntries_not_mem _ (fun e' he' => (hhead e' he').symm)]
      simp [upd, lookupB]
    · have hne : k ≠ k0 := fun hh => hk hh.symm
      have hb := @applyEntries_base (upd (fun _ => none) k0 v0)
        (fun _ => none) t k (by simp [upd, hne])
      rw [hb, ih htail]
      simp [lookupB, hk]

lemma length_flattenB (l : List (Option Bucket)) :
    (flattenB l).length = totalCount l := by
  induction l with
  | nil => rfl
  | cons ob t ih => simp [flattenB_cons, totalCount_cons, ih]

lemma mem_flattenB {l : List (Option Bucket)} {e : Key × Value}
    (h : e ∈ flattenB l) : ∃ j, j < l.length ∧ e ∈ (slotAt l j).getD [] := by
  induction l with
  | nil => simp [flattenB] at h
  | cons ob t ih =>
    rw [flattenB_cons] at h
    rcases List.mem_append.mp h with h1 | h2
    · exact ⟨0, by simp, by simpa [slotAt] using h1⟩
    · obtain ⟨j, hj, hm⟩ := ih h2
      exact ⟨j + 1, by simpa using hj, by simpa [slotAt] using hm⟩

lemma lookupB_flattenB (f : Key → Nat) :
    ∀ (l : List (Option Bucket)) (i0 : Nat) (k : Key),
      (∀ j, j < l.length → ∀ e ∈ (slotAt l j).getD [], f e.1 = i0 + j) →
      lookupB (flattenB l) k =
        if i0 ≤ f k then lookupB ((slotAt l (f k - i0)).getD []) k else none := by
  intro l
  induction l with
  | nil =>
    intro i0 k hp
    simp [flattenB, lookupB, slotAt, List.getD]
  | cons ob t ih =>
    intro i0 k hp
    have hp0 : ∀ e ∈ ob.getD [], f e.1 = i0 := by
      intro e he
      simpa using hp 0 (by simp) e (by simpa [slotAt] using he)
    have hpt : ∀ j, j < t.length → ∀ e ∈ (slotAt t j).getD [], f e.1 = (i0 + 1) + j := by
      intro j hj e he
      have := hp (j + 1) (by simpa using hj) e (by simpa [slotAt] using he)
      omega
    rw [flattenB_cons]
    by_cases hfk : f k = i0
    · have hsub : f k - i0 = 0 := by omega
      rw [if_pos (by omega), hsub]
      cases hlk : lookupB (ob.getD []) k with
      | some v =>
        rw [lookupB_append_some hlk]
        simp [slotAt, hlk]
      | none =>
        rw [lookupB_append_none hlk, ih (i0 + 1) k hpt, if_neg (by omega)]
        simp [slotAt, hlk]
    · have hhead : lookupB (ob.getD []) k = none := by
        rw [lookupB_eq_none_iff]
        intro e he heq
        exact hfk (heq ▸ hp0 e he)
      rw [lookupB_append_none hhead, ih (i0 + 1) k hpt]
      by_cases hlt : f k < i0
      · rw [if_neg (by omega), if_neg (by omega)]
      · rw [if_pos (by omega), if_pos (by omega)]
        have : f k - i0 = (f k - (i0 + 1)) + 1 := by omega
        rw [this]
        simp [slotAt]

lemma nodup_flattenB (f : Key → Nat) :
    ∀ (l : List (Option Bucket)) (i0 : Nat),
      (∀ j, j < l.length → ∀ e ∈ (slotAt l j).getD [], f e.1 = i0 + j) →
      (∀ j, j < l.length → ((slotAt l j).getD []).Pairwise
        (fun e e' => e.1 ≠ e'.1)) →
      (flattenB l).Pairwise (fun e e' => e.1 ≠ e'.1) := by
  intro l
  induction l with
  | nil =>
    intro i0 _ _
    simp [flattenB]
  | cons ob t ih =>
    intro i0 hp hn
    have hp0 : ∀ e ∈ ob.getD [], f e.1 = i0 := by
      intro e he
      simpa using hp 0 (by simp) e (by simpa [slotAt] using he)
    have hpt : ∀ j, j < t.length → ∀ e ∈ (slotAt t j).getD [], f e.1 = (i0 + 1) + j := by
      intro j hj e he
      have := hp (j + 1) (by simpa using hj) e (by simpa [slotAt] using he)
      omega
    have hnt : ∀ j, j < t.length → ((slotAt t j).getD []).Pairwise
        (fun e e' => e.1 ≠ e'.1) := by
      intro j hj
      simpa [slotAt] using hn (j + 1) (by simpa using hj)
    rw [flattenB_cons, List.pairwise_append]
    refine ⟨by simpa [slotAt] using hn 0 (by simp), ih (i0 + 1) hpt hnt, ?_⟩
    intro e1 he1 e2 he2
    obtain ⟨j, hj, hm⟩ := mem_flattenB he2
    have h1 := hp0 e1 he1
    have h2 := hpt j hj e2 hm
    intro heq
    rw [heq] at h1
    omega

/-! Invariant bookkeeping for the three bucket mutations (in-place replace,
append, splice) and for `#getBucket`. -/

lemma placement_all {s : Hashmap} (h : Inv0 s) :
    ∀ i, ∀ e ∈ bucketAt s i, bucketIdx s.size e.1 = i := by
  intro i e he
  by_cases hi : i < s.buckets.length
  · exact h.2.2.1 i hi e he
  · rw [bucketAt_of_le (Nat.le_of_not_lt hi)] at he
    simp at he

lemma nodup_all {s : Hashmap} (h : Inv0 s) :
    ∀ i, (bucketAt s i).Pairwise (fun e e' => e.1 ≠ e'.1) := by
  intro i
  by_cases hi : i < s.buckets.length
  · exact h.2.2.2 i hi
  · rw [bucketAt_of_le (Nat.le_of_not_lt hi)]
    exact List.Pairwise.nil

lemma inv0_ensure {s : Hashmap} (k : Key) (h : Inv0 s) : Inv0 (ensure s k).1 := by
  refine ⟨by rw [ensure_size]; exact h.1, ?_, ?_, ?_⟩
  · rw [ensure_count, ensure_totalCount]
    exact h.2.1
  · intro i _ e he
    rw [ensure_bucketAt] at he
    rw [ensure_size]
    exact placement_all h i e he
  · intro i _
    rw [ensure_bucketAt]
    exact nodup_all h i

lemma findVal_ensure (s : Hashmap) (k q : Key) :
    findVal (ensure s k).1 q = findVal s q := by
  unfold findVal
  rw [ensure_size, ensure_bucketAt]

/-- `findVal` after overwriting slot i, in terms of the old state. -/
lemma findVal_set {s1 s2 : Hashmap} {i : Nat} {b' : Bucket}
    (hsz : s2.size = s1.size) (hbk : s2.buckets = s1.buckets.set i (some b'))
    (hl : i < s1.buckets.length) (q : Key) :
    findVal s2 q =
      if bucketIdx s1.size q = i then lookupB b' q else findVal s1 q := by
  unfold findVal bucketAt
  rw [hsz, hbk]
  by_cases hq : bucketIdx s1.size q = i
  · rw [if_pos hq, hq, slotAt_set_self _ hl]
    rfl
  · rw [if_neg hq, slotAt_set_ne _ (fun hh => hq hh.symm)]

lemma bucketAt_set {s1 s2 : Hashmap} {i : Nat} {b' : Bucket}
    (hbk : s2.buckets = s1.buckets.set i (some b')) (hl : i < s1.buckets.length) :
    ∀ j, bucketAt s2 j = if j = i then b' else bucketAt s1 j := by
  intro j
  unfold bucketAt
  rw [hbk]
  by_cases hj : j = i
  · rw [if_pos hj, hj, slotAt_set_self _ hl]
    rfl
  · rw [if_neg hj, slotAt_set_ne _ (fun hh => hj hh.symm)]

/-- `findVal_set` specialised to the literal record produced by `setItem`. -/
lemma findVal_setState (s1 : Hashmap) (i : Nat) (b' : Bucket) (c : Int)
    (hl : i < s1.buckets.length) (q : Key) :
    findVal
        { size := s1.size, buckets := s1.buckets.set i (some b'),
          count := c, resizeLog := s1.resizeLog } q
      = if bucketIdx s1.size q = i then lookupB b' q else findVal s1 q :=
  @findVal_set s1
    { size := s1.size, buckets := s1.buckets.set i (some b'),
      count := c, resizeLog := s1.resizeLog } i b' rfl rfl hl q

lemma inv0_replace {s1 s2 : Hashmap} {i : Nat} {b b' : Bucket} {k : Key}
    {v : Value} (h : Inv0 s1) (hsz : s2.size = s1.size)
    (hbk : s2.buckets = s1.buckets.set i (some b'))
    (hcnt : s2.count = s1.count) (hslot : slotAt s1.buckets i = some b)
    (hb : bucketAt s1 i = b) (hrep : replaceB b k v = some b') : Inv0 s2 := by
  have hl : i < s1.buckets.length := lt_of_slotAt_some hslot
  obtain ⟨hmap, _, _⟩ := replaceB_some_spec hrep
  have hba := bucketAt_set hbk hl
  refine ⟨by rw [hsz]; exact h.1, ?_, ?_, ?_⟩
  · have hset := @totalCount_set s1.buckets i b b' hslot
    have hlen : b'.length = b.length := by
      rw [← List.length_map b' Prod.fst, hmap, List.length_map]
    rw [hcnt, hbk, h.2.1]
    have : totalCount (s1.buckets.set i (some b')) = totalCount s1.buckets := by
      omega
    rw [this]
  · intro j _ e he
    rw [hba j] at he
    rw [hsz]
    by_cases hj : j = i
    · rw [if_pos hj] at he
      subst hj
      have : e.1 ∈ b.map Prod.fst := by
        rw [← hmap]
        exact List.mem_map_of_mem Prod.fst he
      obtain ⟨e0, he0, heq⟩ := List.mem_map.mp this
      rw [← heq]
      rw [← hb] at he0
      exact placement_all h j e0 he0
    · rw [if_neg hj] at he
      exact placement_all h j e he
  · intro j _
    rw [hba j]
    by_cases hj : j = i
    · rw [if_pos hj]
      have hbase : List.Pairwise (fun e e' => (e : Key × Value).1 ≠ e'.1) b := by
        rw [← hb]
        exact nodup_all h i
      have h1 : List.Pairwise Ne (b.map Prod.fst) := List.pairwise_map.mpr hbase
      rw [← hmap] at h1
      exact List.pairwise_map.mp h1
    · rw [if_neg hj]
      exact nodup_all h j

lemma inv0_append {s1 s2 : Hashmap} {i : Nat} {b : Bucket} {k : Key}
    {v : Value} (h : Inv0 s1) (hsz : s2.size = s1.size)
    (hbk : s2.buckets = s1.buckets.set i (some (b ++ [(k, v)])))
    (hcnt : s2.count = s1.count + 1) (hslot : slotAt s1.buckets i = some b)
    (hb : bucketAt s1 i = b) (hi : bucketIdx s1.size k = i)
    (habs : lookupB b k = none) : Inv0 s2 := by
  have hl : i < s1.buckets.length := lt_of_slotAt_some hslot
  have hba := bucketAt_set hbk hl
  refine ⟨by rw [hsz]; exact h.1, ?_, ?_, ?_⟩
  · have hset := @totalCount_set s1.buckets i b (b ++ [(k, v)]) hslot
    rw [hcnt, hbk, h.2.1]
    have : totalCount (s1.buckets.set i (some (b ++ [(k, v)])))
        = totalCount s1.buckets + 1 := by
      simp at hset
      omega
    rw [this]
    push_cast
    ring
  · intro j _ e he
    rw [hba j] at he
    rw [hsz]
    by_cases hj : j = i
    · rw [if_pos hj] at he
      subst hj
      rcases List.mem_append.mp he with h1 | h2
      · rw [← hb] at h1
        exact placement_all h j e h1
      · simp at h2
        rw [h2]
        exact hi
    · rw [if_neg hj] at he
      exact placement_all h j e he
  · intro j _
    rw [hba j]
    by_cases hj : j = i
    · rw [if_pos hj]
      rw [List.pairwise_append]
      refine ⟨by rw [← hb]; exact nodup_all h i, List.pairwise_singleton _ _, ?_⟩
      intro e1 he1 e2 he2
      simp at he2
      rw [he2]
      rw [lookupB_eq_none_iff] at habs
      exact habs e1 he1
    · rw [if_neg hj]
      exact nodup_all h j

lemma inv0_remove {s1 s2 : Hashmap} {i : Nat} {b b' : Bucket} {k : Key}
    (h : Inv0 s1) (hsz : s2.size = s1.size)
    (hbk : s2.buckets = s1.buckets.set i (some b'))
    (hcnt : s2.count = s1.count - 1) (hslot : slotAt s1.buckets i = some b)
    (hb : bucketAt s1 i = b) (hrm : removeFirstB b k = some b') : Inv0 s2 := by
  have hl : i < s1.buckets.length := lt_of_slotAt_some hslot
  have hsub := removeFirstB_sublist hrm
  have hlen := removeFirstB_length hrm
  have hba := bucketAt_set hbk hl
  refine ⟨by rw [hsz]; exact h.1, ?_, ?_, ?_⟩
  · have hset := @totalCount_set s1.buckets i b b' hslot
    rw [hcnt, hbk, h.2.1]
    have h1 : totalCount s1.buckets = totalCount (s1.buckets.set i (some b')) + 1 := by
      omega
    rw [h1]
    push_cast
    ring
  · intro j _ e he
    rw [hba j] at he
    rw [hsz]
    by_cases hj : j = i
    · rw [if_pos hj] at he
      subst hj
      rw [← hb] at hsub
      exact placement_all h j e (hsub.mem he)
    · rw [if_neg hj] at he
      exact placement_all h j e he
  · intro j _
    rw [hba j]
    by_cases hj : j = i
    · rw [if_pos hj]
      refine List.Pairwise.sublist hsub ?_
      rw [← hb]
      exact nodup_all h i
    · rw [if_neg hj]
      exact nodup_all h j

/-- A state whose buckets are all freshly empty maps every key to nothing. -/
lemma findVal_fresh {s : Hashmap} {n : Nat}
    (hbk : s.buckets = List.replicate n (some [])) (q : Key) :
    findVal s q = none := by
  unfold findVal bucketAt
  rw [hbk]
  by_cases hq : bucketIdx s.size q < n
  · rw [slotAt_replicate _ hq]
    rfl
  · rw [slotAt_of_le (by simpa using Nat.le_of_not_lt hq)]
    rfl

/-- A state whose buckets are all freshly empty satisfies the structural
invariant as soon as its size is positive. -/
lemma inv0_fresh {s : Hashmap} {n : Nat} (hsz : 1 ≤ s.size)
    (hbk : s.buckets = List.replicate n (some []))
    (hcnt : s.count = 0) : Inv0 s := by
  refine ⟨hsz, ?_, ?_, ?_⟩
  · rw [hcnt, hbk, totalCount_replicate_empty]
    rfl
  · intro i hi e he
    unfold bucketAt at he
    rw [hbk] at hi he
    rw [slotAt_replicate _ (by simpa using hi)] at he
    simp at he
  · intro i hi
    unfold bucketAt
    rw [hbk] at hi ⊢
    rw [slotAt_replicate _ (by simpa using hi)]
    exact List.Pairwise.nil

/-! The central induction on fuel: every operation of the insert/rehash
cluster preserves the structural invariant, keeps (or, after a completed
load-factor check, establishes) the stable band, and transforms the
key-value mapping exactly as repeated insertion describes. -/

lemma opSpec : ∀ fuel : Nat,
    (∀ s k v s', Inv0 s → setItem fuel s k v = .ok s' →
      Inv0 s' ∧ (Band s → Band s') ∧
        ∀ q, findVal s' q = upd (findVal s) k v q) ∧
    (∀ s s', Inv0 s → checkLoadFactor fuel s = .ok s' →
      Inv0 s' ∧ Band s' ∧ ∀ q, findVal s' q = findVal s q) ∧
    (∀ s s', Inv0 s → checkUnderLoadFactor fuel s = .ok s' →
      Inv0 s' ∧ (Band s → Band s') ∧ ∀ q, findVal s' q = findVal s q) ∧
    (∀ s n s', Inv0 s → 1 ≤ n → resize fuel s n = .ok s' →
      Inv0 s' ∧ Band s' ∧ ∀ q, findVal s' q = findVal s q) ∧
    (∀ s L s', Inv0 s → reinsertAll fuel s L = .ok s' →
      Inv0 s' ∧ (Band s → Band s') ∧
        ∀ q, findVal s' q = applyEntries (findVal s) (flattenB L) q) ∧
    (∀ s b s', Inv0 s → reinsertBucket fuel s b = .ok s' →
      Inv0 s' ∧ (Band s → Band s') ∧
        ∀ q, findVal s' q = applyEntries (findVal s) b q) := by
  intro fuel
  induction fuel with
  | zero =>
    refine ⟨?_, ?_, ?_, ?_, ?_, ?_⟩ <;> intro s
    · intro k v s' _ hok
      simp [setItem] at hok
    · intro s' _ hok
      simp [checkLoadFactor] at hok
    · intro s' _ hok
      simp [checkUnderLoadFactor] at hok
    · intro n s' _ _ hok
      simp [resize] at hok
    · intro L s' _ hok
      simp [reinsertAll] at hok
    · intro b s' _ hok
      simp [reinsertBucket] at hok
  | succ fuel ih =>
    obtain ⟨ih1, ih2, ih3, ih4, ih5, ih6⟩ := ih
    refine ⟨?_, ?_, ?_, ?_, ?_, ?_⟩
    -- setItem
    · intro s k v s' hinv hok
      have hinv1 : Inv0 (ensure s k).1 := inv0_ensure k hinv
      have hidx := ensure_idx s k
      have hszn := ensure_size s k
      have hcnt := ensure_count s k
      have hslot := ensure_slot s k
      have hlt : bucketIdx s.size k < (ensure s k).1.buckets.length :=
        ensure_idx_lt s k
      have hbat : bucketAt (ensure s k).1 (bucketIdx s.size k)
          = bucketAt s (bucketIdx s.size k) := ensure_bucketAt s k _
      have hbeq : (slotAt (ensure s k).1.buckets (ensure s k).2).getD []
          = bucketAt s (bucketIdx s.size k) := by
        rw [hidx, hslot]
        rfl
      simp only [setItem] at hok
      rw [hbeq, hidx] at hok
      cases hrep : replaceB (bucketAt s (bucketIdx s.size k)) k v with
      | some b' =>
        rw [hrep] at hok
        simp only [Except.ok.injEq] at hok
        subst hok
        obtain ⟨hmap, hlk, hlo⟩ := replaceB_some_spec hrep
        refine ⟨?_, ?_, ?_⟩
        · exact inv0_replace hinv1 rfl rfl rfl (hidx ▸ hslot) hbat hrep
        · intro hband
          unfold Band at hband ⊢
          simp only [hszn, hcnt]
          exact hband
        · intro q
          rw [findVal_setState (ensure s k).1 (bucketIdx s.size k) b'
            (ensure s k).1.count hlt q]
          rw [hszn]
          unfold upd
          by_cases hq : q = k
          · subst hq
            rw [if_pos rfl, hlk]
            simp
          · rw [if_neg hq]
            by_cases hqi : bucketIdx s.size q = bucketIdx s.size k
            · rw [if_pos hqi, hlo q hq]
              unfold findVal
              rw [hqi]
            · rw [if_neg hqi, findVal_ensure]
      | none =>
        rw [hrep] at hok
        simp only at hok
        have habs : lookupB (bucketAt s (bucketIdx s.size k)) k = none :=
          (replaceB_none_iff _ _ v).mp hrep
        have hinv2 : Inv0
            { (ensure s k).1 with
              buckets := (ensure s k).1.buckets.set (bucketIdx s.size k)
                (some (bucketAt s (bucketIdx s.size k) ++ [(k, v)])),
              count := (ensure s k).1.count + 1 } := by
          refine inv0_append hinv1 rfl rfl rfl (hidx ▸ hslot) hbat ?_ habs
          rw [hszn]
        obtain ⟨hI, hB, hM⟩ := ih2 _ s' hinv2 hok
        refine ⟨hI, fun _ => hB, ?_⟩
        · intro q
          rw [hM q, findVal_setState (ensure s k).1 (bucketIdx s.size k)
            (bucketAt s (bucketIdx s.size k) ++ [(k, v)])
            ((ensure s k).1.count + 1) hlt q, hszn]
          unfold upd
          by_cases hq : q = k
          · subst hq
            rw [if_pos rfl, lookupB_append_none habs]
            simp [lookupB]
          · rw [if_neg hq]
            by_cases hqi : bucketIdx s.size q = bucketIdx s.size k
            · rw [if_pos hqi]
              have hlq : lookupB (bucketAt s (bucketIdx s.size k)
                  ++ [(k, v)]) q = lookupB (bucketAt s (bucketIdx s.size k)) q := by
                cases hx : lookupB (bucketAt s (bucketIdx s.size k)) q with
                | some w => exact lookupB_append_some hx
                | none =>
                  rw [lookupB_append_none hx]
                  have hkq : ¬k = q := fun hh => hq hh.symm
                  simp [lookupB, hkq]
              rw [hlq]
              unfold findVal
              rw [hqi]
            · rw [if_neg hqi, findVal_ensure]
    -- checkLoadFactor
    · intro s s' hinv hok
      simp only [checkLoadFactor] at hok
      split at hok
      · rename_i hcond
        have h1 : 1 ≤ 2 * s.size := by
          have := hinv.1
          omega
        exact (ih4 s (2 * s.size) s' hinv h1 hok).imp id (fun h => ⟨h.1, h.2⟩)
      · rename_i hcond
        simp only [Except.ok.injEq] at hok
        subst hok
        exact ⟨hinv, by unfold Band; omega, fun q => rfl⟩
    -- checkUnderLoadFactor
    · intro s s' hinv hok
      simp only [checkUnderLoadFactor] at hok
      split at hok
      · rename_i hcond
        have h1 : 1 ≤ (s.size + 1) / 2 := by
          have := hinv.1
          omega
        obtain ⟨hI, hB, hM⟩ := ih4 s ((s.size + 1) / 2) s' hinv h1 hok
        exact ⟨hI, fun _ => hB, hM⟩
      · simp only [Except.ok.injEq] at hok
        subst hok
        exact ⟨hinv, id, fun q => rfl⟩
    -- resize
    · intro s n s' hinv hn hok
      simp only [resize] at hok
      have hfresh : Inv0
          { size := n, buckets := List.replicate n (some []),
            count := 0, resizeLog := s.resizeLog ++ [n] } :=
        inv0_fresh hn rfl rfl
      obtain ⟨hI, hB, hM⟩ := ih5 _ s.buckets s' hfresh hok
      refine ⟨hI, hB (by unfold Band; simp), ?_⟩
      intro q
      rw [hM q]
      have hbase := @applyEntries_base
        (findVal
          { size := n, buckets := List.replicate n (some []),
            count := 0, resizeLog := s.resizeLog ++ [n] })
        (fun _ => none) (flattenB s.buckets) q (findVal_fresh rfl q)
      rw [hbase]
      have hp : ∀ j, j < s.buckets.length →
          ∀ e ∈ (slotAt s.buckets j).getD [], bucketIdx s.size e.1 = 0 + j := by
        intro j hj e he
        rw [Nat.zero_add]
        exact hinv.2.2.1 j hj e he
      have hn' : ∀ j, j < s.buckets.length →
          ((slotAt s.buckets j).getD []).Pairwise (fun e e' => e.1 ≠ e'.1) := by
        intro j hj
        exact hinv.2.2.2 j hj
      rw [applyEntries_nodup q (nodup_flattenB (bucketIdx s.size) s.buckets 0 hp hn')]
      rw [lookupB_flattenB (bucketIdx s.size) s.buckets 0 q hp]
      rw [if_pos (Nat.zero_le _), Nat.sub_zero]
      rfl
    -- reinsertAll
    · intro s L s' hinv hok
      cases L with
      | nil =>
        simp only [reinsertAll, Except.ok.injEq] at hok
        subst hok
        exact ⟨hinv, id, fun q => rfl⟩
      | cons ob rest =>
        cases ob with
        | none => simp [reinsertAll] at hok
        | some b =>
          simp only [reinsertAll] at hok
          cases hrb : reinsertBucket fuel s b with
          | error e =>
            rw [hrb] at hok
            simp at hok
          | ok s1 =>
            rw [hrb] at hok
            simp only at hok
            obtain ⟨hI1, hB1, hM1⟩ := ih6 s b s1 hinv hrb
            obtain ⟨hI2, hB2, hM2⟩ := ih5 s1 rest s' hI1 hok
            refine ⟨hI2, fun hb => hB2 (hB1 hb), ?_⟩
            intro q
            rw [hM2 q]
            have hbase := @applyEntries_base (findVal s1)
              (applyEntries (findVal s) b) (flattenB rest) q (hM1 q)
            rw [hbase, ← applyEntries_append, flattenB_cons]
            simp
    -- reinsertBucket
    · intro s b s' hinv hok
      cases b with
      | nil =>
        simp only [reinsertBucket, Except.ok.injEq] at hok
        subst hok
        exact ⟨hinv, id, fun q => rfl⟩
      | cons e rest =>
        obtain ⟨k, v⟩ := e
        simp only [reinsertBucket] at hok
        cases hst : setItem fuel s k v with
        | error er =>
          rw [hst] at hok
          simp at hok
        | ok s1 =>
          rw [hst] at hok
          simp only at hok
          obtain ⟨hI1, hB1, hM1⟩ := ih1 s k v s1 hinv hst
          obtain ⟨hI2, hB2, hM2⟩ := ih6 s1 rest s' hI1 hok
          refine ⟨hI2, fun hb => hB2 (hB1 hb), ?_⟩
          intro q
          rw [hM2 q]
          have hbase := @applyEntries_base (findVal s1)
            (upd (findVal s) k v) rest q (hM1 q)
          rw [hbase, applyEntries_cons]

/-! Specifications of the remaining operations and the reachability
invariant. -/

lemma removeItem_ok_spec {fuel : Nat} {s : Hashmap} {k : Key} {s' : Hashmap}
    (hinv : Inv0 s) (hok : removeItem fuel s k = .ok s') :
    Inv0 s' ∧ (Band s → Band s') := by
  cases fuel with
  | zero => simp [removeItem] at hok
  | succ fuel =>
    have hinv1 : Inv0 (ensure s k).1 := inv0_ensure k hinv
    have hidx := ensure_idx s k
    have hszn := ensure_size s k
    have hcnt := ensure_count s k
    have hslot := ensure_slot s k
    have hbeq : (slotAt (ensure s k).1.buckets (ensure s k).2).getD []
        = bucketAt s (bucketIdx s.size k) := by
      rw [hidx, hslot]
      rfl
    simp only [removeItem] at hok
    rw [hbeq, hidx] at hok
    cases hrm : removeFirstB (bucketAt s (bucketIdx s.size k)) k with
    | none =>
      rw [hrm] at hok
      simp only [Except.ok.injEq] at hok
      subst hok
      refine ⟨hinv1, ?_⟩
      intro hband
      unfold Band at hband ⊢
      rw [hszn, hcnt]
      exact hband
    | some b' =>
      rw [hrm] at hok
      simp only at hok
      have hinv2 : Inv0
          { (ensure s k).1 with
            buckets := (ensure s k).1.buckets.set (bucketIdx s.size k) (some b'),
            count := (ensure s k).1.count - 1 } :=
        inv0_remove hinv1 rfl rfl rfl (hidx ▸ hslot) (ensure_bucketAt s k _) hrm
      obtain ⟨hI, hB, _⟩ := (opSpec fuel).2.2.1 _ s' hinv2 hok
      refine ⟨hI, fun hband => hB ?_⟩
      unfold Band at hband ⊢
      simp only [hszn, hcnt]
      omega

lemma getItem_snd (s : Hashmap) (k : Key) : (getItem s k).2 = (ensure s k).1 := rfl

lemma getItem_fst (s : Hashmap) (k : Key) : (getItem s k).1 = findVal s k := by
  unfold getItem findVal
  simp only
  rw [ensure_idx, ensure_slot]
  rfl

lemma inv_construct (n : Nat) : Inv (construct n) := by
  have hsz : 1 ≤ (construct n).size := by
    unfold construct initialSize
    by_cases hn : n = 0 <;> simp [hn] <;> omega
  refine ⟨inv0_fresh hsz rfl rfl, ?_⟩
  unfold Band construct
  simp
  split <;> positivity

lemma inv_clear {s : Hashmap} (h : Inv s) : Inv (clear s) := by
  have hsz : 1 ≤ (clear s).size := h.1.1
  refine ⟨inv0_fresh hsz rfl rfl, ?_⟩
  unfold Band clear
  simp

/-- Every state reachable through the public interface satisfies the full
invariant: positive size, accurate count, correct placement, no duplicate
keys, and count within the stable band. -/
lemma reachable_inv {s : Hashmap} (h : Reachable s) : Inv s := by
  induction h with
  | construct n => exact inv_construct n
  | set hr hok ih =>
    obtain ⟨hI, hB, _⟩ := (opSpec _).1 _ _ _ _ ih.1 hok
    exact ⟨hI, hB ih.2⟩
  | get k hr ih =>
    rw [getItem_snd]
    refine ⟨inv0_ensure k ih.1, ?_⟩
    unfold Band
    rw [ensure_size, ensure_count]
    exact ih.2
  | remove hr hok ih =>
    obtain ⟨hI, hB⟩ := removeItem_ok_spec ih.1 hok
    exact ⟨hI, hB ih.2⟩
  | clear hr ih => exact inv_clear ih

/-! Exact accounting of a rebuild that stays under the grow threshold: no
nested resize fires, so size and log are untouched and the count ends at
the number of re-inserted entries. -/

lemma setItem_exact {fuel : Nat} {s : Hashmap} {k : Key} {v : Value}
    {s' : Hashmap} (habs : findVal s k = none)
    (hload : 10 * (s.count + 1) ≤ 7 * (s.size : Int))
    (hok : setItem fuel s k v = .ok s') :
    s'.size = s.size ∧ s'.count = s.count + 1 ∧
      s'.resizeLog = s.resizeLog := by
  cases fuel with
  | zero => simp [setItem] at hok
  | succ fuel =>
    have hidx := ensure_idx s k
    have hszn := ensure_size s k
    have hcnt := ensure_count s k
    have hlog := ensure_log s k
    have hslot := ensure_slot s k
    have hbeq : (slotAt (ensure s k).1.buckets (ensure s k).2).getD []
        = bucketAt s (bucketIdx s.size k) := by
      rw [hidx, hslot]
      rfl
    have hrep : replaceB (bucketAt s (bucketIdx s.size k)) k v = none :=
      (replaceB_none_iff _ _ _).mpr habs
    simp only [setItem] at hok
    rw [hbeq, hidx, hrep] at hok
    simp only at hok
    cases fuel with
    | zero => simp [checkLoadFactor] at hok
    | succ fuel =>
      simp only [checkLoadFactor] at hok
      rw [if_neg (by simp only [hszn, hcnt]; omega)] at hok
      simp only [Except.ok.injEq] at hok
      subst hok
      exact ⟨hszn, by rw [hcnt], hlog⟩

lemma reinsertExact : ∀ fuel : Nat,
    (∀ s b s', Inv0 s → (∀ e ∈ b, findVal s e.1 = none) →
      b.Pairwise (fun e e' => e.1 ≠ e'.1) →
      10 * (s.count + (b.length : Int)) ≤ 7 * (s.size : Int) →
      reinsertBucket fuel s b = .ok s' →
      s'.size = s.size ∧ s'.count = s.count + b.length ∧
        s'.resizeLog = s.resizeLog) ∧
    (∀ s L s', Inv0 s → (∀ e ∈ flattenB L, findVal s e.1 = none) →
      (flattenB L).Pairwise (fun e e' => e.1 ≠ e'.1) →
      10 * (s.count + (totalCount L : Int)) ≤ 7 * (s.size : Int) →
      reinsertAll fuel s L = .ok s' →
      s'.size = s.size ∧ s'.count = s.count + totalCount L ∧
        s'.resizeLog = s.resizeLog) := by
  intro fuel
  induction fuel with
  | zero =>
    constructor
    · intro s b s' _ _ _ _ hok
      simp [reinsertBucket] at hok
    · intro s L s' _ _ _ _ hok
      simp [reinsertAll] at hok
  | succ fuel ih =>
    obtain ⟨ihb, iha⟩ := ih
    constructor
    · intro s b s' hinv habs hnd hload hok
      cases b with
      | nil =>
        simp only [reinsertBucket, Except.ok.injEq] at hok
        subst hok
        simp
      | cons e rest =>
        obtain ⟨k, v⟩ := e
        simp only [reinsertBucket] at hok
        cases hst : setItem fuel s k v with
        | error er =>
          rw [hst] at hok
          simp at hok
        | ok s1 =>
          rw [hst] at hok
          simp only at hok
          have hk : findVal s k = none := habs (k, v) (List.mem_cons_self _ _)
          have hstep := setItem_exact hk
            (by simp at hload ⊢; omega) hst
          obtain ⟨hI1, _, hM1⟩ := (opSpec fuel).1 s k v s1 hinv hst
          rcases List.pairwise_cons.mp hnd with ⟨hhead, htail⟩
          have habs1 : ∀ e ∈ rest, findVal s1 e.1 = none := by
            intro e he
            rw [hM1 e.1]
            unfold upd
            rw [if_neg (hhead e he).symm]
            exact habs e (List.mem_cons_of_mem _ he)
          have hload1 : 10 * (s1.count + (rest.length : Int))
              ≤ 7 * (s1.size : Int) := by
            rw [hstep.1, hstep.2.1]
            simp at hload ⊢
            omega
          obtain ⟨ha, hb, hc⟩ := ihb s1 rest s' hI1 habs1 htail hload1 hok
          refine ⟨by rw [ha, hstep.1], ?_, by rw [hc, hstep.2.2]⟩
          rw [hb, hstep.2.1]
          simp
          ring
    · intro s L s' hinv habs hnd hload hok
      cases L with
      | nil =>
        simp only [reinsertAll, Except.ok.injEq] at hok
        subst hok
        simp [totalCount]
      | cons ob rest =>
        cases ob with
        | none => simp [reinsertAll] at hok
        | some b =>
          simp only [reinsertAll] at hok
          cases hrb : reinsertBucket fuel s b with
          | error e =>
            rw [hrb] at hok
            simp at hok
          | ok s1 =>
            rw [hrb] at hok
            simp only at hok
            have hflat : flattenB (some b :: rest) = b ++ flattenB rest := by
              rw [flattenB_cons]
              rfl
            rw [hflat] at habs hnd
            rcases List.pairwise_append.mp hnd with ⟨hnd1, hnd2, hcross⟩
            have htc : totalCount (some b :: rest)
                = b.length + totalCount rest := by
              simp [totalCount_cons]
            have hstep := ihb s b s1 hinv
              (fun e he => habs e (List.mem_append_left _ he)) hnd1
              (by rw [htc] at hload; push_cast at hload ⊢; omega) hrb
            obtain ⟨hI1, _, hM1⟩ := (opSpec fuel).2.2.2.2.2 s b s1 hinv hrb
            have habs1 : ∀ e ∈ flattenB rest, findVal s1 e.1 = none := by
              intro e he
              rw [hM1 e.1]
              rw [applyEntries_not_mem _ (fun e0 he0 => hcross e0 he0 e he)]
              exact habs e (List.mem_append_right _ he)
            have hload1 : 10 * (s1.count + (totalCount rest : Int))
                ≤ 7 * (s1.size : Int) := by
              rw [htc] at hload
              rw [hstep.1, hstep.2.1]
              push_cast at hload ⊢
              omega
            obtain ⟨ha, hb2, hc⟩ := iha s1 rest s' hI1 habs1 hnd2 hload1 hok
            refine ⟨by rw [ha, hstep.1], ?_, by rw [hc, hstep.2.2]⟩
            rw [hb2, hstep.2.1, htc]
            push_cast
            ring

/-- A `#resize` whose target size keeps the load factor at or below 0.7
performs exactly the logged rebuild: no nested resize fires. -/
lemma resize_exact {fuel : Nat} {s : Hashmap} {n : Nat} {s' : Hashmap}
    (hinv : Inv0 s) (hn : 1 ≤ n)
    (h7 : 10 * (totalCount s.buckets : Int) ≤ 7 * (n : Int))
    (hok : resize fuel s n = .ok s') :
    s'.size = n ∧ s'.count = totalCount s.buckets ∧
      s'.resizeLog = s.resizeLog ++ [n] := by
  cases fuel with
  | zero => simp [resize] at hok
  | succ fuel =>
    simp only [resize] at hok
    have hfresh : Inv0
        { size := n, buckets := List.replicate n (some []),
          count := 0, resizeLog := s.resizeLog ++ [n] } :=
      inv0_fresh hn rfl rfl
    have hp : ∀ j, j < s.buckets.length →
        ∀ e ∈ (slotAt s.buckets j).getD [], bucketIdx s.size e.1 = 0 + j := by
      intro j hj e he
      rw [Nat.zero_add]
      exact hinv.2.2.1 j hj e he
    have hn' : ∀ j, j < s.buckets.length →
        ((slotAt s.buckets j).getD []).Pairwise (fun e e' => e.1 ≠ e'.1) := by
      intro j hj
      exact hinv.2.2.2 j hj
    have hnd := nodup_flattenB (bucketIdx s.size) s.buckets 0 hp hn'
    obtain ⟨ha, hb, hc⟩ := (reinsertExact fuel).2 _ s.buckets s' hfresh
      (fun e _ => findVal_fresh rfl e.1) hnd (by simpa using h7) hok
    exact ⟨ha, by simpa using hb, hc⟩

/-! Every operation only ever appends to the resize log, and a `#resize`
call logs its target size first. -/

lemma log_extend : ∀ fuel : Nat,
    (∀ s k v s', setItem fuel s k v = .ok s' →
      ∃ t, s'.resizeLog = s.resizeLog ++ t) ∧
    (∀ s s', checkLoadFactor fuel s = .ok s' →
      ∃ t, s'.resizeLog = s.resizeLog ++ t) ∧
    (∀ s s', checkUnderLoadFactor fuel s = .ok s' →
      ∃ t, s'.resizeLog = s.resizeLog ++ t) ∧
    (∀ s n s', resize fuel s n = .ok s' →
      ∃ t, s'.resizeLog = s.resizeLog ++ n :: t) ∧
    (∀ s L s', reinsertAll fuel s L = .ok s' →
      ∃ t, s'.resizeLog = s.resizeLog ++ t) ∧
    (∀ s b s', reinsertBucket fuel s b = .ok s' →
      ∃ t, s'.resizeLog = s.resizeLog ++ t) := by
  intro fuel
  induction fuel with
  | zero =>
    refine ⟨?_, ?_, ?_, ?_, ?_, ?_⟩ <;> intro s
    · intro k v s' hok
      simp [setItem] at hok
    · intro s' hok
      simp [checkLoadFactor] at hok
    · intro s' hok
      simp [checkUnderLoadFactor] at hok
    · intro n s' hok
      simp [resize] at hok
    · intro L s' hok
      simp [reinsertAll] at hok
    · intro b s' hok
      simp [reinsertBucket] at hok
  | succ fuel ih =>
    obtain ⟨ih1, ih2, ih3, ih4, ih5, ih6⟩ := ih
    refine ⟨?_, ?_, ?_, ?_, ?_, ?_⟩
    · intro s k v s' hok
      simp only [setItem] at hok
      cases hrep : replaceB ((slotAt (ensure s k).1.buckets
          (ensure s k).2).getD []) k v with
      | some b' =>
        rw [hrep] at hok
        simp only [Except.ok.injEq] at hok
        subst hok
        exact ⟨[], by simp [ensure_log]⟩
      | none =>
        rw [hrep] at hok
        simp only at hok
        obtain ⟨t, ht⟩ := ih2 _ s' hok
        exact ⟨t, by rw [ht]; simp [ensure_log]⟩
    · intro s s' hok
      simp only [checkLoadFactor] at hok
      split at hok
      · obtain ⟨t, ht⟩ := ih4 _ _ s' hok
        exact ⟨2 * s.size :: t, ht⟩
      · simp only [Except.ok.injEq] at hok
        subst hok
        exact ⟨[], by simp⟩
    · intro s s' hok
      simp only [checkUnderLoadFactor] at hok
      split at hok
      · obtain ⟨t, ht⟩ := ih4 _ _ s' hok
        exact ⟨(s.size + 1) / 2 :: t, ht⟩
      · simp only [Except.ok.injEq] at hok
        subst hok
        exact ⟨[], by simp⟩
    · intro s n s' hok
      simp only [resize] at hok
      obtain ⟨t, ht⟩ := ih5 _ s.buckets s' hok
      refine ⟨t, ?_⟩
      rw [ht]
      simp
    · intro s L s' hok
      cases L with
      | nil =>
        simp only [reinsertAll, Except.ok.injEq] at hok
        subst hok
        exact ⟨[], by simp⟩
      | cons ob rest =>
        cases ob with
        | none => simp [reinsertAll] at hok
        | some b =>
          simp only [reinsertAll] at hok
          cases hrb : reinsertBucket fuel s b with
          | error e =>
            rw [hrb] at hok
            simp at hok
          | ok s1 =>
            rw [hrb] at hok
            simp only at hok
            obtain ⟨t1, ht1⟩ := ih6 s b s1 hrb
            obtain ⟨t2, ht2⟩ := ih5 s1 rest s' hok
            exact ⟨t1 ++ t2, by rw [ht2, ht1, List.append_assoc]⟩
    · intro s b s' hok
      cases b with
      | nil =>
        simp only [reinsertBucket, Except.ok.injEq] at hok
        subst hok
        exact ⟨[], by simp⟩
      | cons e rest =>
        obtain ⟨k, v⟩ := e
        simp only [reinsertBucket] at hok
        cases hst : setItem fuel s k v with
        | error er =>
          rw [hst] at hok
          simp at hok
        | ok s1 =>
          rw [hst] at hok
          simp only at hok
          obtain ⟨t1, ht1⟩ := ih1 s k v s1 hst
          obtain ⟨t2, ht2⟩ := ih6 s1 rest s' hok
          exact ⟨t1 ++ t2, by rw [ht2, ht1, List.append_assoc]⟩

/-! Density: while the bucket array has exactly `size` slots and no holes
(which `clear` is the only operation to break), the mutating operations can
never hit the hole-iteration TypeError. -/

/-- The bucket array covers the table exactly, with no holes. -/
def Dense (s : Hashmap) : Prop :=
  1 ≤ s.size ∧ s.buckets.length = s.size ∧ (none : Option Bucket) ∉ s.buckets

lemma slotAt_mem {l : List (Option Bucket)} {i : Nat} (h : i < l.length) :
    slotAt l i ∈ l := by
  unfold slotAt
  rw [List.getD_eq_getElem?_getD, List.getElem?_eq_getElem h]
  exact List.getElem_mem h

lemma dense_ensure {s : Hashmap} (k : Key) (h : Dense s) :
    ensure s k = (s, bucketIdx s.size k) := by
  have hlt : bucketIdx s.size k < s.buckets.length := by
    rw [h.2.1]
    exact Nat.mod_lt _ h.1
  unfold ensure
  cases hg : slotAt s.buckets (bucketIdx s.size k) with
  | some b => rfl
  | none =>
    exact absurd (hg ▸ slotAt_mem hlt) h.2.2

lemma dense_set {s1 s2 : Hashmap} {i : Nat} {b' : Bucket} (h : Dense s1)
    (hsz : s2.size = s1.size) (hbk : s2.buckets = s1.buckets.set i (some b')) :
    Dense s2 := by
  refine ⟨by rw [hsz]; exact h.1, by rw [hsz, hbk]; simpa using h.2.1, ?_⟩
  rw [hbk]
  intro hmem
  rcases List.mem_or_eq_of_mem_set hmem with h1 | h2
  · exact h.2.2 h1
  · exact Option.noConfusion h2

lemma dense_fresh {s : Hashmap} {n : Nat} (hn : 1 ≤ n) (hsz : s.size = n)
    (hbk : s.buckets = List.replicate n (some [])) : Dense s := by
  refine ⟨by omega, by rw [hbk, hsz]; simp, ?_⟩
  rw [hbk]
  intro hmem
  exact Option.noConfusion (List.eq_of_mem_replicate hmem)

/-- `dense_set` specialised to the literal record produced by the
operations. -/
lemma dense_setState (s1 : Hashmap) (i : Nat) (b' : Bucket) (c : Int)
    (h : Dense s1) :
    Dense
      { size := s1.size, buckets := s1.buckets.set i (some b'),
        count := c, resizeLog := s1.resizeLog } :=
  @dense_set s1
    { size := s1.size, buckets := s1.buckets.set i (some b'),
      count := c, resizeLog := s1.resizeLog } i b' h rfl rfl

lemma denseSpec : ∀ fuel : Nat,
    (∀ s k v, Dense s →
      (∀ e, setItem fuel s k v = .error e → e = .outOfFuel) ∧
      (∀ s', setItem fuel s k v = .ok s' → Dense s')) ∧
    (∀ s, Dense s →
      (∀ e, checkLoadFactor fuel s = .error e → e = .outOfFuel) ∧
      (∀ s', checkLoadFactor fuel s = .ok s' → Dense s')) ∧
    (∀ s, Dense s →
      (∀ e, checkUnderLoadFactor fuel s = .error e → e = .outOfFuel) ∧
      (∀ s', checkUnderLoadFactor fuel s = .ok s' → Dense s')) ∧
    (∀ s n, 1 ≤ n → (none : Option Bucket) ∉ s.buckets →
      (∀ e, resize fuel s n = .error e → e = .outOfFuel) ∧
      (∀ s', resize fuel s n = .ok s' → Dense s')) ∧
    (∀ s L, Dense s → (none : Option Bucket) ∉ L →
      (∀ e, reinsertAll fuel s L = .error e → e = .outOfFuel) ∧
      (∀ s', reinsertAll fuel s L = .ok s' → Dense s')) ∧
    (∀ s b, Dense s →
      (∀ e, reinsertBucket fuel s b = .error e → e = .outOfFuel) ∧
      (∀ s', reinsertBucket fuel s b = .ok s' → Dense s')) := by
  intro fuel
  induction fuel with
  | zero =>
    refine ⟨?_, ?_, ?_, ?_, ?_, ?_⟩ <;> intro s
    · intro k v _
      refine ⟨?_, ?_⟩ <;> intro x hx <;> simp [setItem] at hx
      exact hx.symm
    · intro _
      refine ⟨?_, ?_⟩ <;> intro x hx <;> simp [checkLoadFactor] at hx
      exact hx.symm
    · intro _
      refine ⟨?_, ?_⟩ <;> intro x hx <;> simp [checkUnderLoadFactor] at hx
      exact hx.symm
    · intro n _ _
      refine ⟨?_, ?_⟩ <;> intro x hx <;> simp [resize] at hx
      exact hx.symm
    · intro L _ _
      refine ⟨?_, ?_⟩ <;> intro x hx <;> simp [reinsertAll] at hx
      exact hx.symm
    · intro b _
      refine ⟨?_, ?_⟩ <;> intro x hx <;> simp [reinsertBucket] at hx
      exact hx.symm
  | succ fuel ih =>
    obtain ⟨ih1, ih2, ih3, ih4, ih5, ih6⟩ := ih
    refine ⟨?_, ?_, ?_, ?_, ?_, ?_⟩
    · intro s k v hd
      have hens := dense_ensure k hd
      constructor
      · intro e he
        simp only [setItem, hens] at he
        cases hrep : replaceB ((slotAt s.buckets (bucketIdx s.size k)).getD [])
            k v with
        | some b' =>
          rw [hrep] at he
          simp at he
        | none =>
          rw [hrep] at he
          simp only at he
          exact (ih2 _ (dense_setState s (bucketIdx s.size k)
            (((slotAt s.buckets (bucketIdx s.size k)).getD []) ++ [(k, v)])
            (s.count + 1) hd)).1 e he
      · intro s' hs'
        simp only [setItem, hens] at hs'
        cases hrep : replaceB ((slotAt s.buckets (bucketIdx s.size k)).getD [])
            k v with
        | some b' =>
          rw [hrep] at hs'
          simp only [Except.ok.injEq] at hs'
          subst hs'
          exact dense_setState s (bucketIdx s.size k) b' s.count hd
        | none =>
          rw [hrep] at hs'
          simp only at hs'
          exact (ih2 _ (dense_setState s (bucketIdx s.size k)
            (((slotAt s.buckets (bucketIdx s.size k)).getD []) ++ [(k, v)])
            (s.count + 1) hd)).2 s' hs'
    · intro s hd
      constructor
      · intro e he
        simp only [checkLoadFactor] at he
        split at he
        · exact (ih4 s (2 * s.size) (by have := hd.1; omega) hd.2.2).1 e he
        · simp at he
      · intro s' hs'
        simp only [checkLoadFactor] at hs'
        split at hs'
        · exact (ih4 s (2 * s.size) (by have := hd.1; omega) hd.2.2).2 s' hs'
        · simp only [Except.ok.injEq] at hs'
          subst hs'
          exact hd
    · intro s hd
      constructor
      · intro e he
        simp only [checkUnderLoadFactor] at he
        split at he
        · exact (ih4 s ((s.size + 1) / 2) (by have := hd.1; omega) hd.2.2).1 e he
        · simp at he
      · intro s' hs'
        simp only [checkUnderLoadFactor] at hs'
        split at hs'
        · exact (ih4 s ((s.size + 1) / 2) (by have := hd.1; omega) hd.2.2).2 s' hs'
        · simp only [Except.ok.injEq] at hs'
          subst hs'
          exact hd
    · intro s n hn hnm
      have hdm : Dense
          { size := n, buckets := List.replicate n (some []),
            count := 0, resizeLog := s.resizeLog ++ [n] } :=
        dense_fresh hn rfl rfl
      constructor
      · intro e he
        simp only [resize] at he
        exact (ih5 _ s.buckets hdm hnm).1 e he
      · intro s' hs'
        simp only [resize] at hs'
        exact (ih5 _ s.buckets hdm hnm).2 s' hs'
    · intro s L hd hnm
      cases L with
      | nil =>
        constructor
        · intro e he
          simp [reinsertAll] at he
        · intro s' hs'
          simp only [reinsertAll, Except.ok.injEq] at hs'
          subst hs'
          exact hd
      | cons ob rest =>
        cases ob with
        | none => exact absurd (List.mem_cons_self _ _) hnm
        | some b =>
          have hnm' : (none : Option Bucket) ∉ rest := by
            intro hc
            exact hnm (List.mem_cons_of_mem _ hc)
          constructor
          · intro e he
            simp only [reinsertAll] at he
            cases hrb : reinsertBucket fuel s b with
            | error e2 =>
              rw [hrb] at he
              simp only [Except.error.injEq] at he
              subst he
              exact (ih6 s b hd).1 e2 hrb
            | ok s1 =>
              rw [hrb] at he
              simp only at he
              exact (ih5 s1 rest ((ih6 s b hd).2 s1 hrb) hnm').1 e he
          · intro s' hs'
            simp only [reinsertAll] at hs'
            cases hrb : reinsertBucket fuel s b with
            | error e2 =>
              rw [hrb] at hs'
              simp at hs'
            | ok s1 =>
              rw [hrb] at hs'
              simp only at hs'
              exact (ih5 s1 rest ((ih6 s b hd).2 s1 hrb) hnm').2 s' hs'
    · intro s b hd
      cases b with
      | nil =>
        constructor
        · intro e he
          simp [reinsertBucket] at he
        · intro s' hs'
          simp only [reinsertBucket, Except.ok.injEq] at hs'
          subst hs'
          exact hd
      | cons e0 rest =>
        obtain ⟨k, v⟩ := e0
        constructor
        · intro e he
          simp only [reinsertBucket] at he
          cases hst : setItem fuel s k v with
          | error e2 =>
            rw [hst] at he
            simp only [Except.error.injEq] at he
            subst he
            exact (ih1 s k v hd).1 e2 hst
          | ok s1 =>
            rw [hst] at he
            simp only at he
            exact (ih6 s1 rest ((ih1 s k v hd).2 s1 hst)).1 e he
        · intro s' hs'
          simp only [reinsertBucket] at hs'
          cases hst : setItem fuel s k v with
          | error e2 =>
            rw [hst] at hs'
            simp at hs'
          | ok s1 =>
            rw [hst] at hs'
            simp only at hs'
            exact (ih6 s1 rest ((ih1 s k v hd).2 s1 hst)).2 s' hs'

/-- `removeItem` on a dense state: it can only fail by running out of fuel,
and keeps the state dense. -/
lemma dense_removeItem {fuel : Nat} {s : Hashmap} {k : Key} (hd : Dense s) :
    (∀ e, removeItem fuel s k = .error e → e = .outOfFuel) ∧
    (∀ s', removeItem fuel s k = .ok s' → Dense s') := by
  cases fuel with
  | zero =>
    refine ⟨?_, ?_⟩ <;> intro x hx <;> simp [removeItem] at hx
    exact hx.symm
  | succ fuel =>
    have hens := dense_ensure k hd
    constructor
    · intro e he
      simp only [removeItem, hens] at he
      cases hrm : removeFirstB ((slotAt s.buckets (bucketIdx s.size k)).getD [])
          k with
      | none =>
        rw [hrm] at he
        simp at he
      | some b' =>
        rw [hrm] at he
        simp only at he
        exact ((denseSpec fuel).2.2.1 _ (dense_setState s (bucketIdx s.size k)
          b' (s.count - 1) hd)).1 e he
    · intro s' hs'
      simp only [removeItem, hens] at hs'
      cases hrm : removeFirstB ((slotAt s.buckets (bucketIdx s.size k)).getD [])
          k with
      | none =>
        rw [hrm] at hs'
        simp only [Except.ok.injEq] at hs'
        subst hs'
        exact hd
      | some b' =>
        rw [hrm] at hs'
        simp only at hs'
        exact ((denseSpec fuel).2.2.1 _ (dense_setState s (bucketIdx s.size k)
          b' (s.count - 1) hd)).2 s' hs'

end Hashmap

/-! The hash value is always an unsigned 32-bit quantity. -/

lemma jsHashStep_lt (h c : Nat) : jsHashStep h c < 2 ^ 32 := by
  unfold jsHashStep
  have h1 : 0 ≤ Int.emod (roundDouble (jsToInt32 (h ^^^ c) * 16777619)) (2 ^ 32) :=
    Int.emod_nonneg _ (by norm_num)
  have h2 : Int.emod (roundDouble (jsToInt32 (h ^^^ c) * 16777619)) (2 ^ 32)
      < 2 ^ 32 :=
    Int.emod_lt_of_pos _ (by norm_num)
  omega

lemma jsHash_lt (key : Key) : jsHash key < 2 ^ 32 := by
  unfold jsHash
  have : ∀ (l : List Nat) (a : Nat), a < 2 ^ 32 →
      l.foldl jsHashStep a < 2 ^ 32 := by
    intro l
    induction l with
    | nil => intro a ha; exact ha
    | cons c t ih =>
      intro a _
      exact ih (jsHashStep a c) (jsHashStep_lt a c)
  exact this key 2166136261 (by norm_num)

/-- The raw result of running the constructor on an arbitrary integer
argument: `this.#size = size || 4` treats only 0 as falsy among integers,
and `Array.from` coerces the requested length with ToLength, which clamps a
negative value to 0, so construction always produces a state and never
throws. -/
structure SignedHashmap where
  size : Int
  buckets : List (Option Bucket)
  count : Int
deriving DecidableEq

/-- `new Hashmap(z)` for any integer z, following the source constructor
line by line. -/
def constructSigned (z : Int) : SignedHashmap :=
  let sz : Int := if z = 0 then (Hashmap.initialSize : Int) else z
  { size := sz, buckets := List.replicate sz.toNat (some []), count := 0 }

namespace Hashmap

/-! Concrete traces used by several claims.  Keys are single or double
UTF-16 code units; all operations run with ample fuel. -/

/-- Chain a `setItem` with fuel 100 onto an intermediate result. -/
def andSet (r : Res) (k : Key) (v : Value) : Res :=
  match r with
  | .ok s => setItem 100 s k v
  | .error e => .error e

/-- The state of an ok result (a fresh default table otherwise). -/
def stateOf (r : Res) : Hashmap :=
  match r with
  | .ok s => s
  | .error _ => construct 0

/-- Project the observable resize behaviour of a result. -/
def resView (r : Res) : Option (Nat × Int × List Nat) :=
  match r with
  | .ok s => some (s.size, s.count, s.resizeLog)
  | .error _ => none

/-- Project the error of a failed result. -/
def errView (r : Res) : Option JsErr :=
  match r with
  | .ok _ => none
  | .error e => some e

/-- Fresh default table, then three distinct inserts; the third crosses the
0.7 load factor (3/4) and grows the table to 8. -/
def growTrace : Res :=
  andSet (andSet (andSet (.ok (construct 0)) [97] [0]) [98] [0]) [99] [0]

/-- `clear()` on the grown table: four fresh buckets, count 0 — but the
size field keeps its pre-clear value 8. -/
def postClear : Hashmap := clear (stateOf growTrace)

/-- From the post-clear state: five more distinct inserts, the fifth into
bucket 6 of 8, which extends the 4-slot array and leaves a hole at slot 5. -/
def holeTrace : Res :=
  andSet (andSet (andSet (andSet (andSet (.ok postClear) [97] [0]) [98] [0])
    [99] [0]) [100] [0]) [97, 102] [0]

/-- Fresh default table, then seven distinct inserts (growing 4 to 8 to
16). -/
def sevenTrace : Res :=
  andSet (andSet (andSet (andSet (andSet (andSet (andSet
    (.ok (construct 0)) [97] [0]) [98] [0]) [99] [0]) [100] [0]) [101] [0])
    [102] [0]) [103] [0]

/-- Removing one key from the seven-key table: count drops to 6, 6/16 is
under 0.4 with size over 10, so a shrink to 8 fires — whose re-insertion
immediately regrows to 16. -/
def sevenRemove : Res :=
  match sevenTrace with
  | .ok s => removeItem 100 s [97]
  | .error e => .error e

/-- A table of size 11 with four entries, then one removal: 3/11 is under
0.4 and 11 is over 10, so a shrink to ceil(11/2) = 6 fires. -/
def elevenTrace : Res :=
  andSet (andSet (andSet (andSet (.ok (construct 11)) [97] [0]) [98] [0])
    [99] [0]) [100] [0]

def elevenRemove : Res :=
  match elevenTrace with
  | .ok s => removeItem 100 s [97]
  | .error e => .error e

/-- The state of a size-4 table holding three entries, at the moment the
grow check has just fired (count 3, 3/4 over 0.7): input of the rebuild. -/
def growMoment : Hashmap :=
  { size := 4,
    buckets := [some [([97], [0]), ([98], [0]), ([99], [0])],
      some [], some [], some []],
    count := 3, resizeLog := [] }

/-! Stepping equations for the rehash loops, and the explicit intermediate
states of the traces above.  Each trace fact below is proved one operation
at a time from a literal state: reducing a whole multi-operation trace in
one definitional evaluation duplicates the unevaluated state at every use
and is exponentially expensive. -/

lemma reinsertAll_cons {fuel : Nat} {s s' : Hashmap} {b : Bucket}
    {rest : List (Option Bucket)} (h : reinsertBucket fuel s b = .ok s') :
    reinsertAll (fuel + 1) s (some b :: rest) = reinsertAll fuel s' rest := by
  simp only [reinsertAll, h]

lemma reinsertBucket_cons {fuel : Nat} {s s' : Hashmap} {k : Key}
    {v : Value} {rest : Bucket} (h : setItem fuel s k v = .ok s') :
    reinsertBucket (fuel + 1) s ((k, v) :: rest)
      = reinsertBucket fuel s' rest := by
  simp only [reinsertBucket, h]

/-- Fresh default table after inserting "a" (code unit 97). -/
def tOne : Hashmap :=
  { size := 4, buckets := [some [([97], [0])], some [], some [], some []],
    count := 1, resizeLog := [] }

/-- ... after "a", "b". -/
def tTwo : Hashmap :=
  { size := 4,
    buckets := [some [([97], [0]), ([98], [0])], some [], some [], some []],
    count := 2, resizeLog := [] }

/-- ... after "a", "b", "c": the third insert grew the table to 8. -/
def tThree : Hashmap :=
  { size := 8,
    buckets := [some [([99], [0])], some [], some [], some [],
      some [([97], [0]), ([98], [0])], some [], some [], some []],
    count := 3, resizeLog := [8] }

/-- ... after "d" as the fourth key. -/
def tFour : Hashmap :=
  { size := 8,
    buckets := [some [([99], [0])], some [], some [], some [],
      some [([97], [0]), ([98], [0]), ([100], [0])], some [], some [],
      some []],
    count := 4, resizeLog := [8] }

/-- ... after "e" as the fifth key. -/
def tFive : Hashmap :=
  { size := 8,
    buckets := [some [([99], [0]), ([101], [0])], some [], some [], some [],
      some [([97], [0]), ([98], [0]), ([100], [0])], some [], some [],
      some []],
    count := 5, resizeLog := [8] }

/-- ... after "f" as the sixth key: grown to 16. -/
def tSix : Hashmap :=
  { size := 16,
    buckets := [some [([99], [0]), ([101], [0])], some [], some [], some [],
      some [([98], [0]), ([100], [0])], some [], some [], some [],
      some [([102], [0])], some [], some [], some [],
      some [([97], [0])], some [], some [], some []],
    count := 6, resizeLog := [8, 16] }

/-- ... after "g" as the seventh key: the end state of sevenTrace. -/
def tSeven : Hashmap :=
  { size := 16,
    buckets := [some [([99], [0]), ([101], [0])], some [], some [], some [],
      some [([98], [0]), ([100], [0])], some [], some [], some [],
      some [([102], [0]), ([103], [0])], some [], some [], some [],
      some [([97], [0])], some [], some [], some []],
    count := 7, resizeLog := [8, 16] }

/-- The end state of sevenRemove: "a" gone, a shrink to 8 logged and
immediately undone by a regrow to 16. -/
def tEight : Hashmap :=
  { size := 16,
    buckets := [some [([99], [0]), ([101], [0])], some [], some [], some [],
      some [([98], [0]), ([100], [0])], some [], some [], some [],
      some [([102], [0]), ([103], [0])], some [], some [], some [],
      some [], some [], some [], some []],
    count := 6, resizeLog := [8, 16, 8, 16] }

/-- The old-bucket snapshot the shrink rebuild of sevenRemove iterates:
tSeven's buckets with "a" already spliced out (which coincides with
tEight's buckets). -/
def snapSixteen : List (Option Bucket) := tEight.buckets

/-- The fresh 8-slot table the shrink rebuild of sevenRemove starts from. -/
def fEight : Hashmap :=
  { size := 8, buckets := List.replicate 8 (some []), count := 0,
    resizeLog := [8, 16, 8] }

/-- Rebuild intermediate of sevenRemove: snapshot bucket 0 re-inserted. -/
def uOne : Hashmap :=
  { size := 8,
    buckets := [some [([99], [0]), ([101], [0])], some [], some [], some [],
      some [], some [], some [], some []],
    count := 2, resizeLog := [8, 16, 8] }

/-- ... and snapshot bucket 4 re-inserted. -/
def uTwo : Hashmap :=
  { size := 8,
    buckets := [some [([99], [0]), ([101], [0])], some [], some [], some [],
      some [([98], [0]), ([100], [0])], some [], some [], some []],
    count := 4, resizeLog := [8, 16, 8] }

/-- ... and "f" from snapshot bucket 8 re-inserted; the next re-insert
("g", the sixth) fires the nested regrow, producing tEight. -/
def uThree : Hashmap :=
  { size := 8,
    buckets := [some [([99], [0]), ([101], [0]), ([102], [0])], some [],
      some [], some [],
      some [([98], [0]), ([100], [0])], some [], some [], some []],
    count := 5, resizeLog := [8, 16, 8] }

/-- `clear()` applied to tThree: four fresh buckets, count 0, size 8. -/
def pcState : Hashmap :=
  { size := 8, buckets := List.replicate 4 (some []), count := 0,
    resizeLog := [8] }

/-- Post-clear insert of "d", which hashes to slot 4 — one past the end of
the 4-slot array, so the lazy allocation extends it. -/
def pOne : Hashmap :=
  { size := 8,
    buckets := [some [], some [], some [], some [], some [([100], [0])]],
    count := 1, resizeLog := [8] }

/-- ... then "e" (slot 0). -/
def pTwo : Hashmap :=
  { size := 8,
    buckets := [some [([101], [0])], some [], some [], some [],
      some [([100], [0])]],
    count := 2, resizeLog := [8] }

/-- ... then "f" (slot 0): count 3 with size 8, no grow. -/
def pThree : Hashmap :=
  { size := 8,
    buckets := [some [([101], [0]), ([102], [0])], some [], some [], some [],
      some [([100], [0])]],
    count := 3, resizeLog := [8] }

/-- The size-11 table after inserting "a" (slot 7). -/
def eOne : Hashmap :=
  { size := 11,
    buckets := [some [], some [], some [], some [], some [], some [],
      some [], some [([97], [0])], some [], some [], some []],
    count := 1, resizeLog := [] }

/-- ... then "b" (slot 9). -/
def eTwo : Hashmap :=
  { size := 11,
    buckets := [some [], some [], some [], some [], some [], some [],
      some [], some [([97], [0])], some [], some [([98], [0])], some []],
    count := 2, resizeLog := [] }

/-- ... then "c" (slot 7). -/
def eThree : Hashmap :=
  { size := 11,
    buckets := [some [], some [], some [], some [], some [], some [],
      some [], some [([97], [0]), ([99], [0])], some [],
      some [([98], [0])], some []],
    count := 3, resizeLog := [] }

/-- ... then "d" (slot 5): the end state of elevenTrace. -/
def eFour : Hashmap :=
  { size := 11,
    buckets := [some [], some [], some [], some [], some [],
      some [([100], [0])], some [], some [([97], [0]), ([99], [0])],
      some [], some [([98], [0])], some []],
    count := 4, resizeLog := [] }

/-- The end state of elevenRemove: removing "a" shrank the table to 6. -/
def eFive : Hashmap :=
  { size := 6,
    buckets := [some [([99], [0]), ([98], [0])], some [],
      some [([100], [0])], some [], some [], some []],
    count := 3, resizeLog := [6] }

/-- tSeven with "a" already spliced out, as the shrink check receives it. -/
def rOne : Hashmap :=
  { size := 16, buckets := snapSixteen, count := 6, resizeLog := [8, 16] }

/-- One unfolding of `resize`: install the fresh table, log the new size,
hand the snapshot to the re-insertion loop. -/
lemma resize_eq (fuel : Nat) (s : Hashmap) (n : Nat) :
    resize (fuel + 1) s n = reinsertAll fuel
      { size := n, buckets := List.replicate n (some []), count := 0,
        resizeLog := s.resizeLog ++ [n] } s.buckets := rfl

/-! The single-operation trace facts.  Each one evaluates one `setItem` or
`removeItem` from a literal state; the ones containing a rebuild carry a
raised heartbeat budget. -/

set_option maxHeartbeats 2000000 in
lemma stepTwoThree : setItem 100 tTwo [99] [0] = .ok tThree := rfl

set_option maxHeartbeats 2000000 in
lemma stepFiveSix : setItem 100 tFive [102] [0] = .ok tSix := rfl

set_option maxHeartbeats 2000000 in
lemma stepUThreeEight : setItem 86 uThree [103] [0] = .ok tEight := rfl

set_option maxHeartbeats 2000000 in
lemma remElevenStep : removeItem 100 eFour [97] = .ok eFive := rfl

set_option maxHeartbeats 2000000 in
/-- The removal that shrinks the seven-key table and regrows it: the
rebuild is walked one loop step at a time. -/
lemma remSevenStep : removeItem 100 tSeven [97] = .ok tEight := by
  have a0a : removeItem 100 tSeven [97] = checkUnderLoadFactor 99 rOne := rfl
  have a0b : checkUnderLoadFactor 99 rOne = resize 98 rOne 8 := by
    show (if 10 * rOne.count < 4 * (rOne.size : Int) ∧ 10 < rOne.size
        then resize 98 rOne ((rOne.size + 1) / 2) else .ok rOne)
      = resize 98 rOne 8
    rw [if_pos (show 10 * rOne.count < 4 * (rOne.size : Int) ∧ 10 < rOne.size
      from ⟨by decide, by decide⟩)]
    rfl
  have a0c : resize 98 rOne 8 = reinsertAll 97 fEight snapSixteen :=
    resize_eq 97 rOne 8
  have eb : ∀ (f : Nat) (s : Hashmap), reinsertBucket (f + 1) s [] = .ok s :=
    fun f s => rfl
  have b0 : reinsertBucket 96 fEight [([99], [0]), ([101], [0])]
      = .ok uOne := rfl
  have b4 : reinsertBucket 92 uOne [([98], [0]), ([100], [0])]
      = .ok uTwo := rfl
  have c1 : setItem 87 uTwo [102] [0] = .ok uThree := rfl
  have b8 : reinsertBucket 88 uTwo [([102], [0]), ([103], [0])]
      = .ok tEight :=
    (reinsertBucket_cons c1).trans
      ((reinsertBucket_cons stepUThreeEight).trans (eb 85 tEight))
  have a1 : reinsertAll 97 fEight snapSixteen
      = reinsertAll 96 uOne (List.drop 1 snapSixteen) := reinsertAll_cons b0
  have a2 : reinsertAll 96 uOne (List.drop 1 snapSixteen)
      = reinsertAll 95 uOne (List.drop 2 snapSixteen) :=
    reinsertAll_cons (eb 94 uOne)
  have a3 : reinsertAll 95 uOne (List.drop 2 snapSixteen)
      = reinsertAll 94 uOne (List.drop 3 snapSixteen) :=
    reinsertAll_cons (eb 93 uOne)
  have a4 : reinsertAll 94 uOne (List.drop 3 snapSixteen)
      = reinsertAll 93 uOne (List.drop 4 snapSixteen) :=
    reinsertAll_cons (eb 92 uOne)
  have a5 : reinsertAll 93 uOne (List.drop 4 snapSixteen)
      = reinsertAll 92 uTwo (List.drop 5 snapSixteen) := reinsertAll_cons b4
  have a6 : reinsertAll 92 uTwo (List.drop 5 snapSixteen)
      = reinsertAll 91 uTwo (List.drop 6 snapSixteen) :=
    reinsertAll_cons (eb 90 uTwo)
  have a7 : reinsertAll 91 uTwo (List.drop 6 snapSixteen)
      = reinsertAll 90 uTwo (List.drop 7 snapSixteen) :=
    reinsertAll_cons (eb 89 uTwo)
  have a8 : reinsertAll 90 uTwo (List.drop 7 snapSixteen)
      = reinsertAll 89 uTwo (List.drop 8 snapSixteen) :=
    reinsertAll_cons (eb 88 uTwo)
  have a9 : reinsertAll 89 uTwo (List.drop 8 snapSixteen)
      = reinsertAll 88 tEight (List.drop 9 snapSixteen) := reinsertAll_cons b8
  have a10 : reinsertAll 88 tEight (List.drop 9 snapSixteen)
      = reinsertAll 87 tEight (List.drop 10 snapSixteen) :=
    reinsertAll_cons (eb 86 tEight)
  have a11 : reinsertAll 87 tEight (List.drop 10 snapSixteen)
      = reinsertAll 86 tEight (List.drop 11 snapSixteen) :=
    reinsertAll_cons (eb 85 tEight)
  have a12 : reinsertAll 86 tEight (List.drop 11 snapSixteen)
      = reinsertAll 85 tEight (List.drop 12 snapSixteen) :=
    reinsertAll_cons (eb 84 tEight)
  have a13 : reinsertAll 85 tEight (List.drop 12 snapSixteen)
      = reinsertAll 84 tEight (List.drop 13 snapSixteen) :=
    reinsertAll_cons (eb 83 tEight)
  have a14 : reinsertAll 84 tEight (List.drop 13 snapSixteen)
      = reinsertAll 83 tEight (List.drop 14 snapSixteen) :=
    reinsertAll_cons (eb 82 tEight)
  have a15 : reinsertAll 83 tEight (List.drop 14 snapSixteen)
      = reinsertAll 82 tEight (List.drop 15 snapSixteen) :=
    reinsertAll_cons (eb 81 tEight)
  have a16 : reinsertAll 82 tEight (List.drop 15 snapSixteen)
      = reinsertAll 81 tEight (List.drop 16 snapSixteen) :=
    reinsertAll_cons (eb 80 tEight)
  have afin : reinsertAll 81 tEight (List.drop 16 snapSixteen)
      = .ok tEight := rfl
  exact a0a.trans (a0b.trans (a0c.trans (a1.trans (a2.trans (a3.trans
    (a4.trans (a5.trans (a6.trans (a7.trans (a8.trans (a9.trans (a10.trans
      (a11.trans (a12.trans (a13.trans (a14.trans (a15.trans (a16.trans
        afin))))))))))))))))))

/-! The claims. -/

set_option maxHeartbeats 1000000 in
/-- C1 evaluation: running the code on the failing input.  From a fresh
table, inserting three distinct keys grows the table to size 8 (log [8]).
`clear()` then rebuilds 4 empty buckets and resets the count — but `#size`
stays 8, not 4, because `clear` never writes `this.#size`.  Afterwards,
inserting up to three fresh keys does not trigger the grow that a fresh
table exhibits at its third insert: the log still reads [8] and the size
stays 8, so post-clear behaviour differs from a freshly constructed
table. -/
theorem spec_C1_clear_keeps_old_size :
    resView growTrace = some (8, 3, [8]) ∧
    postClear.size = 8 ∧ postClear.count = 0 ∧
    postClear.buckets = List.replicate 4 (some []) ∧
    resView (andSet (andSet (andSet (.ok postClear) [100] [0]) [101] [0])
      [102] [0]) = some (8, 3, [8]) := by
  have g1 : setItem 100 (construct 0) [97] [0] = .ok tOne := rfl
  have g2 : setItem 100 tOne [98] [0] = .ok tTwo := rfl
  have hG : growTrace = .ok tThree := by
    show andSet (andSet (andSet (.ok (construct 0)) [97] [0]) [98] [0])
      [99] [0] = .ok tThree
    rw [show andSet (.ok (construct 0)) [97] [0] = .ok tOne from g1,
      show andSet (.ok tOne) [98] [0] = .ok tTwo from g2]
    exact stepTwoThree
  have hPC : postClear = pcState := by
    show clear (stateOf growTrace) = pcState
    rw [hG]
    rfl
  have q1 : setItem 100 pcState [100] [0] = .ok pOne := rfl
  have q2 : setItem 100 pOne [101] [0] = .ok pTwo := rfl
  have q3 : setItem 100 pTwo [102] [0] = .ok pThree := rfl
  refine ⟨by rw [hG]; rfl, by rw [hPC]; rfl, by rw [hPC]; rfl,
    by rw [hPC]; rfl, ?_⟩
  rw [hPC, show andSet (.ok pcState) [100] [0] = .ok pOne from q1,
    show andSet (.ok pOne) [101] [0] = .ok pTwo from q2,
    show andSet (.ok pTwo) [102] [0] = .ok pThree from q3]
  rfl

/-- C2 counterexample: the hash is not exact 32-bit FNV-1a.  For the
single-character key "b" (code unit 98) the first multiplication produces
an integer of magnitude about 2^54.9 that is not a multiple of 4, so
storing it in a double rounds it, and the resulting hash differs from the
exact FNV-1a value (3876335076 versus 3876335077). -/
theorem spec_C2_not_exact_fnv : jsHash [98] ≠ fnv1a32 [98] := by decide

/-- C2 amended: the hash follows the FNV-1a recurrence but with the
multiplication rounded to the nearest IEEE-754 double before the unsigned
32-bit truncation; the result is always below 2^32, and the bucket index is
that value reduced by a true modulo of the table size (hence always in
range for a positive size). -/
theorem spec_C2_rounded_fnv_bucket (key : Key) (n : Nat) (hn : 0 < n) :
    jsHash key < 2 ^ 32 ∧ bucketIdx n key = jsHash key % n ∧
      bucketIdx n key < n :=
  ⟨jsHash_lt key, rfl, Nat.mod_lt _ hn⟩

theorem spec_C2_rounded_fnv_bucket_witness :
    jsHash [97] < 2 ^ 32 ∧ bucketIdx 8 [97] = jsHash [97] % 8 ∧
      bucketIdx 8 [97] < 8 :=
  spec_C2_rounded_fnv_bucket [97] 8 (by decide)

set_option maxHeartbeats 1000000 in
/-- C3 counterexample: a rebuild triggered by the resize policy does fire a
further resize during its re-insertion.  Seven inserts from a fresh table
reach size 16 with count 7 (log [8, 16]).  Removing one key drops the count
to 6, fires the shrink to 8 — and re-inserting the six entries crosses 0.7
at the sixth entry (6/8), firing a recursive grow straight back to 16.  The
single removal appends two resize events, [8, 16], and the final size is the
pre-shrink size 16: the rebuild undid itself. -/
theorem spec_C3_shrink_rebuild_regrows :
    resView sevenTrace = some (16, 7, [8, 16]) ∧
    resView sevenRemove = some (16, 6, [8, 16, 8, 16]) := by
  have g1 : setItem 100 (construct 0) [97] [0] = .ok tOne := rfl
  have g2 : setItem 100 tOne [98] [0] = .ok tTwo := rfl
  have g4 : setItem 100 tThree [100] [0] = .ok tFour := rfl
  have g5 : setItem 100 tFour [101] [0] = .ok tFive := rfl
  have g7 : setItem 100 tSix [103] [0] = .ok tSeven := rfl
  have hT : sevenTrace = .ok tSeven := by
    show andSet (andSet (andSet (andSet (andSet (andSet (andSet
      (.ok (construct 0)) [97] [0]) [98] [0]) [99] [0]) [100] [0])
      [101] [0]) [102] [0]) [103] [0] = .ok tSeven
    rw [show andSet (.ok (construct 0)) [97] [0] = .ok tOne from g1,
      show andSet (.ok tOne) [98] [0] = .ok tTwo from g2,
      show andSet (.ok tTwo) [99] [0] = .ok tThree from stepTwoThree,
      show andSet (.ok tThree) [100] [0] = .ok tFour from g4,
      show andSet (.ok tFour) [101] [0] = .ok tFive from g5,
      show andSet (.ok tFive) [102] [0] = .ok tSix from stepFiveSix]
    exact g7
  have hR : sevenRemove = .ok tEight := by
    unfold sevenRemove
    rw [hT]
    exact remSevenStep
  exact ⟨by rw [hT]; rfl, by rw [hR]; rfl⟩

/-- C3 amended: a rebuild triggered by the grow check never fires a further
resize.  At every reachable grow moment the pre-insert count is inside the
stable band, so the count satisfies 10*count ≤ 7*size + 10 with size ≥ 1;
under those facts the rebuild at 2*size re-inserts every entry without
re-triggering: exactly the one resize is logged, the size ends at 2*size,
and the count is unchanged.  (Shrink-triggered rebuilds can re-trigger, as
the counterexample shows.) -/
theorem spec_C3_grow_rebuild_no_recursion (fuel : Nat) (s s' : Hashmap)
    (hinv : Inv0 s) (hband : 10 * s.count ≤ 7 * (s.size : Int) + 10)
    (hok : resize fuel s (2 * s.size) = .ok s') :
    s'.resizeLog = s.resizeLog ++ [2 * s.size] ∧ s'.size = 2 * s.size ∧
      s'.count = s.count := by
  have hsz := hinv.1
  have hcnt := hinv.2.1
  have h7 : 10 * (totalCount s.buckets : Int)
      ≤ 7 * ((2 * s.size : Nat) : Int) := by
    rw [← hcnt]
    push_cast
    omega
  obtain ⟨ha, hb, hc⟩ := resize_exact hinv (by omega) h7 hok
  exact ⟨hc, ha, by rw [hb, hcnt]⟩

set_option maxHeartbeats 1000000 in
theorem spec_C3_grow_rebuild_no_recursion_witness :
    (stateOf (resize 100 growMoment (2 * growMoment.size))).resizeLog
        = growMoment.resizeLog ++ [2 * growMoment.size] ∧
      (stateOf (resize 100 growMoment (2 * growMoment.size))).size
        = 2 * growMoment.size ∧
      (stateOf (resize 100 growMoment (2 * growMoment.size))).count
        = growMoment.count :=
  spec_C3_grow_rebuild_no_recursion 100 growMoment
    (stateOf (resize 100 growMoment (2 * growMoment.size)))
    (by unfold Inv0; decide) (by decide) rfl

/-- C4: after inserting an absent key into a reachable state, if the new
count pushes count/size over 0.7 the table is immediately rebuilt at double
the size (the log gains exactly [2*size], the count ends at count+1);
otherwise nothing is resized.  The concrete boundary — a fresh table of
size 4 growing to 8 on the third distinct key — is the witness. -/
theorem spec_C4_grow_after_insert (fuel : Nat) (s s' : Hashmap) (k : Key)
    (v : Value) (hr : Reachable s) (habs : findVal s k = none)
    (hok : setItem fuel s k v = .ok s') :
    (7 * (s.size : Int) < 10 * (s.count + 1) →
      s'.size = 2 * s.size ∧ s'.count = s.count + 1 ∧
        s'.resizeLog = s.resizeLog ++ [2 * s.size]) ∧
    (10 * (s.count + 1) ≤ 7 * (s.size : Int) →
      s'.size = s.size ∧ s'.count = s.count + 1 ∧
        s'.resizeLog = s.resizeLog) := by
  obtain ⟨hinv0, hband⟩ := reachable_inv hr
  refine ⟨?_, fun hle => setItem_exact habs hle hok⟩
  intro hgt
  cases fuel with
  | zero => simp [setItem] at hok
  | succ fuel =>
    have hinv1 : Inv0 (ensure s k).1 := inv0_ensure k hinv0
    have hidx := ensure_idx s k
    have hszn := ensure_size s k
    have hcnt := ensure_count s k
    have hlog := ensure_log s k
    have hslot := ensure_slot s k
    have htcE := ensure_totalCount s k
    have hbeq : (slotAt (ensure s k).1.buckets (ensure s k).2).getD []
        = bucketAt s (bucketIdx s.size k) := by
      rw [hidx, hslot]
      rfl
    have hrep : replaceB (bucketAt s (bucketIdx s.size k)) k v = none :=
      (replaceB_none_iff _ _ _).mpr habs
    simp only [setItem] at hok
    rw [hbeq, hidx, hrep] at hok
    simp only at hok
    cases fuel with
    | zero => simp [checkLoadFactor] at hok
    | succ fuel =>
      simp only [checkLoadFactor] at hok
      rw [if_pos (show
          10 * ((ensure s k).1.count + 1) > 7 * (((ensure s k).1.size : Nat) : Int) by
        rw [hcnt, hszn]
        omega)] at hok
      have hinv2 : Inv0
          { (ensure s k).1 with
            buckets := (ensure s k).1.buckets.set (bucketIdx s.size k)
              (some (bucketAt s (bucketIdx s.size k) ++ [(k, v)])),
            count := (ensure s k).1.count + 1 } := by
        refine inv0_append hinv1 rfl rfl rfl (hidx ▸ hslot)
          (ensure_bucketAt s k _) ?_ habs
        rw [hszn]
      have htot : totalCount ((ensure s k).1.buckets.set (bucketIdx s.size k)
          (some (bucketAt s (bucketIdx s.size k) ++ [(k, v)])))
          = totalCount s.buckets + 1 := by
        have hset := @totalCount_set (ensure s k).1.buckets
          (bucketIdx s.size k) (bucketAt s (bucketIdx s.size k))
          (bucketAt s (bucketIdx s.size k) ++ [(k, v)]) (hidx ▸ hslot)
        rw [htcE] at hset
        simp at hset
        omega
      have hn2 : 1 ≤ 2 * (ensure s k).1.size := by
        have := hinv0.1
        rw [hszn]
        omega
      have h72 : 10 * ((totalCount ((ensure s k).1.buckets.set
            (bucketIdx s.size k) (some (bucketAt s (bucketIdx s.size k)
              ++ [(k, v)])))) : Int)
          ≤ 7 * (((2 * (ensure s k).1.size : Nat)) : Int) := by
        have hc0 := hinv0.2.1
        have hbd : 10 * s.count ≤ 7 * (s.size : Int) := hband
        have h1 : 1 ≤ s.size := hinv0.1
        rw [htot, hszn]
        rcases (by omega : 2 ≤ s.size ∨ s.size = 1) with h2 | h2
        · omega
        · have hT : totalCount s.buckets = 0 := by omega
          omega
      obtain ⟨ha, hb, hc⟩ := resize_exact hinv2 hn2 h72 hok
      simp only [hszn, hlog, htot] at ha hb hc
      refine ⟨ha, ?_, hc⟩
      rw [hb, hinv0.2.1]
      push_cast
      ring

theorem spec_C4_grow_after_insert_witness :
    tThree.size = 2 * tTwo.size ∧ tThree.count = tTwo.count + 1 ∧
      tThree.resizeLog = tTwo.resizeLog ++ [2 * tTwo.size] := by
  have g1 : setItem 100 (construct 0) [97] [0] = .ok tOne := rfl
  have g2 : setItem 100 tOne [98] [0] = .ok tTwo := rfl
  have hreach : Reachable tTwo :=
    Reachable.set (Reachable.set (Reachable.construct 0) g1) g2
  have h := spec_C4_grow_after_insert 100 tTwo tThree [99] [0] hreach
    (by decide) stepTwoThree
  exact h.1 (by decide)

/-- C5: after removing a present key, if the decremented count is under 0.4
of the size and the size exceeds 10, a rebuild at ceil(size * 0.5) =
(size+1)/2 is initiated (logged first, though its re-insertion may log
more); when the size is at most 10, or the count condition fails, nothing
resizes and only the count drops by one.  The guard only gates initiating a
shrink, so the new size may fall to or below 10 — the witness shrinks a
size-11 table to 6. -/
theorem spec_C5_shrink_after_remove (fuel : Nat) (s s' : Hashmap) (k : Key)
    (w : Value) (hpres : findVal s k = some w)
    (hok : removeItem fuel s k = .ok s') :
    ((10 * (s.count - 1) < 4 * (s.size : Int) ∧ 10 < s.size) →
      ∃ t, s'.resizeLog = s.resizeLog ++ ((s.size + 1) / 2) :: t) ∧
    (s.size ≤ 10 → s'.resizeLog = s.resizeLog ∧ s'.size = s.size ∧
      s'.count = s.count - 1) ∧
    (¬ 10 * (s.count - 1) < 4 * (s.size : Int) →
      s'.resizeLog = s.resizeLog ∧ s'.size = s.size ∧
        s'.count = s.count - 1) := by
  cases fuel with
  | zero => simp [removeItem] at hok
  | succ fuel =>
    have hidx := ensure_idx s k
    have hszn := ensure_size s k
    have hcnt := ensure_count s k
    have hlog := ensure_log s k
    have hslot := ensure_slot s k
    have hbeq : (slotAt (ensure s k).1.buckets (ensure s k).2).getD []
        = bucketAt s (bucketIdx s.size k) := by
      rw [hidx, hslot]
      rfl
    obtain ⟨b', hb'⟩ := removeFirstB_of_lookupB
      (show lookupB (bucketAt s (bucketIdx s.size k)) k = some w from hpres)
    simp only [removeItem] at hok
    rw [hbeq, hidx, hb'] at hok
    simp only at hok
    cases fuel with
    | zero => simp [checkUnderLoadFactor] at hok
    | succ fuel =>
      simp only [checkUnderLoadFactor] at hok
      by_cases hcond : 10 * (s.count - 1) < 4 * (s.size : Int) ∧ 10 < s.size
      · rw [if_pos (show
            10 * ((ensure s k).1.count - 1) < 4 * (((ensure s k).1.size : Nat) : Int)
              ∧ 10 < (ensure s k).1.size by
          rw [hcnt, hszn]
          exact hcond)] at hok
        obtain ⟨t, ht⟩ := (log_extend fuel).2.2.2.1 _ _ s' hok
        refine ⟨fun _ => ⟨t, ?_⟩, fun hsz10 => absurd hcond.2 (by omega),
          fun hn => absurd hcond.1 hn⟩
        rw [ht]
        simp only [hszn, hlog]
      · rw [if_neg (show
            ¬ (10 * ((ensure s k).1.count - 1)
                < 4 * (((ensure s k).1.size : Nat) : Int)
              ∧ 10 < (ensure s k).1.size) by
          rw [hcnt, hszn]
          exact hcond)] at hok
        simp only [Except.ok.injEq] at hok
        subst hok
        refine ⟨fun hc => absurd hc hcond, fun _ => ⟨hlog, hszn, by rw [hcnt]⟩,
          fun _ => ⟨hlog, hszn, by rw [hcnt]⟩⟩

set_option maxHeartbeats 1000000 in
theorem spec_C5_shrink_after_remove_witness :
    (resView elevenTrace = some (11, 4, []) ∧
      resView elevenRemove = some (6, 3, [6])) ∧
    (∃ t, (stateOf elevenRemove).resizeLog
      = (stateOf elevenTrace).resizeLog
          ++ ((stateOf elevenTrace).size + 1) / 2 :: t) := by
  have e1 : setItem 100 (construct 11) [97] [0] = .ok eOne := rfl
  have e2 : setItem 100 eOne [98] [0] = .ok eTwo := rfl
  have e3 : setItem 100 eTwo [99] [0] = .ok eThree := rfl
  have e4 : setItem 100 eThree [100] [0] = .ok eFour := rfl
  have hE : elevenTrace = .ok eFour := by
    show andSet (andSet (andSet (andSet (.ok (construct 11)) [97] [0])
      [98] [0]) [99] [0]) [100] [0] = .ok eFour
    rw [show andSet (.ok (construct 11)) [97] [0] = .ok eOne from e1,
      show andSet (.ok eOne) [98] [0] = .ok eTwo from e2,
      show andSet (.ok eTwo) [99] [0] = .ok eThree from e3]
    exact e4
  have hR : elevenRemove = .ok eFive := by
    unfold elevenRemove
    rw [hE]
    exact remElevenStep
  have hsE : stateOf elevenTrace = eFour := by rw [hE]; rfl
  have hsR : stateOf elevenRemove = eFive := by rw [hR]; rfl
  refine ⟨⟨by rw [hE]; rfl, by rw [hR]; rfl⟩, ?_⟩
  have h := spec_C5_shrink_after_remove 100 (stateOf elevenTrace)
    (stateOf elevenRemove) [97] [0] (by rw [hsE]; decide)
    (by rw [hsE, hsR]; exact remElevenStep)
  exact h.1 (by rw [hsE]; decide)

/-- C6 counterexample: a zero or negative constructor size is not rejected.
`new Hashmap(0)` silently falls back to the default size 4 (`0` is falsy in
`size || this.#initialSize`), and `new Hashmap(-5)` is accepted, storing -5
in `#size` while `Array.from` clamps the negative length to an empty bucket
array — no error is raised at construction time in either case. -/
theorem spec_C6_zero_neg_not_rejected :
    constructSigned 0
        = { size := 4, buckets := List.replicate 4 (some []), count := 0 } ∧
    (constructSigned (-5)).size = -5 ∧
    (constructSigned (-5)).buckets = [] ∧
    (constructSigned (-5)).count = 0 := by
  refine ⟨by decide, by decide, by decide, by decide⟩

/-- C6 amended: construction is total on every integer argument and never
rejects or defers an error: `size || 4` replaces only 0 by the default 4
(so `#size` is never zero, though it can be negative), the bucket array has
ToLength-clamped length `max(size, 0)`, and the count starts at 0. -/
theorem spec_C6_constructor_total (z : Int) :
    (constructSigned z).size = (if z = 0 then ((initialSize : Nat) : Int) else z) ∧
    (constructSigned z).size ≠ 0 ∧
    (constructSigned z).buckets
      = List.replicate (constructSigned z).size.toNat (some []) ∧
    (constructSigned z).count = 0 := by
  by_cases hz : z = 0
  · subst hz
    exact ⟨by decide, by decide, rfl, rfl⟩
  · have hs : (constructSigned z).size = z := by
      simp [constructSigned, hz]
    exact ⟨by rw [hs, if_neg hz], by rw [hs]; exact hz, rfl, rfl⟩

/-- C7: the round trip holds on every reachable state: a successful
`setItem(k, v)` followed by `getItem(k)` returns v. -/
theorem spec_C7_round_trip (fuel : Nat) (s s' : Hashmap) (k : Key)
    (v : Value) (hr : Reachable s) (hok : setItem fuel s k v = .ok s') :
    (getItem s' k).1 = some v := by
  obtain ⟨hinv0, _⟩ := reachable_inv hr
  have h := ((opSpec fuel).1 s k v s' hinv0 hok).2.2 k
  rw [getItem_fst, h]
  unfold upd
  simp

theorem spec_C7_round_trip_witness :
    (getItem (stateOf (setItem 100 (construct 0) [97] [0])) [97]).1
      = some [0] :=
  spec_C7_round_trip 100 (construct 0) _ [97] [0] (Reachable.construct 0) rfl

/-- C8: in every reachable state — after any sequence of construct,
setItem, getItem, removeItem and clear calls — the count field equals the
total number of entries summed across all buckets. -/
theorem spec_C8_count_matches (s : Hashmap) (hr : Reachable s) :
    s.count = (totalCount s.buckets : Int) :=
  (reachable_inv hr).1.2.1

theorem spec_C8_count_matches_witness :
    (construct 5).count = (totalCount (construct 5).buckets : Int) :=
  spec_C8_count_matches (construct 5) (Reachable.construct 5)

/-- C9 counterexample: `getItem` is not side-effect free.  In the
reachable post-clear state the size is 8 but the bucket array has only 4
slots; the key "af" hashes to bucket 6, so `#getBucket` lazily assigns
`this.#buckets[6] = []`, extending the bucket array — `getItem` returns a
state different from its input. -/
theorem spec_C9_getItem_mutates :
    Reachable postClear ∧
    (getItem postClear [97, 102]).2 ≠ postClear ∧
    (getItem postClear [97, 102]).2.buckets.length
      ≠ postClear.buckets.length := by
  refine ⟨?_, by decide, by decide⟩
  exact Reachable.clear (@Reachable.set _ _ 100 [99] [0]
    (@Reachable.set _ _ 100 [98] [0]
      (@Reachable.set _ _ 100 [97] [0] (Reachable.construct 0) rfl) rfl) rfl)

/-- C9 amended: `getItem` returns the stored value (or absence) and its
only state effect is `#getBucket`'s lazy allocation: an empty bucket may be
written at the hashed index (extending the array), while the size, count,
resize log, every bucket's contents, and every key's lookup result are
unchanged. -/
theorem spec_C9_getItem_frame (s : Hashmap) (k : Key) :
    (getItem s k).1 = findVal s k ∧
    (getItem s k).2.size = s.size ∧
    (getItem s k).2.count = s.count ∧
    (getItem s k).2.resizeLog = s.resizeLog ∧
    (∀ j, bucketAt (getItem s k).2 j = bucketAt s j) ∧
    (∀ q, findVal (getItem s k).2 q = findVal s q) := by
  rw [getItem_snd]
  exact ⟨getItem_fst s k, ensure_size s k, ensure_count s k, ensure_log s k,
    fun j => ensure_bucketAt s k j, fun q => findVal_ensure s k q⟩

/-- C10 counterexample: the operations are not total on every reachable
state.  From the post-clear state, five inserts leave the 8-slot table with
a hole at slot 5 (the key "af" extends the array to slot 6).  The next
fresh insert raises the count to 6, fires the grow check, and the rebuild's
`for...of` over the old bucket array reaches the hole — iterating
`undefined` throws a TypeError, so this `setItem` call faults instead of
completing. -/
theorem spec_C10_hole_typeerror :
    Reachable (stateOf holeTrace) ∧
    errView (setItem 100 (stateOf holeTrace) [101] [0])
      = some JsErr.typeError := by
  have h0 : Reachable postClear :=
    Reachable.clear (@Reachable.set _ _ 100 [99] [0]
      (@Reachable.set _ _ 100 [98] [0]
        (@Reachable.set _ _ 100 [97] [0] (Reachable.construct 0) rfl) rfl) rfl)
  refine ⟨?_, by decide⟩
  exact @Reachable.set _ _ 100 [97, 102] [0]
    (@Reachable.set _ _ 100 [100] [0]
      (@Reachable.set _ _ 100 [99] [0]
        (@Reachable.set _ _ 100 [98] [0]
          (@Reachable.set _ _ 100 [97] [0] h0 rfl) rfl) rfl) rfl) rfl

/-- C10 amended: on dense states — bucket array exactly `size` slots long
with no holes, as the constructor produces — every operation is total:
`setItem` and `removeItem` can only fail by fuel exhaustion, never by the
hole-iteration TypeError, and they preserve density; `getItem` (and with it
`keyExists`) does not even need its lazy allocation, returning the state
unchanged. -/
theorem spec_C10_dense_total (fuel : Nat) (s : Hashmap) (k : Key)
    (v : Value) (hd : Dense s) :
    (∀ e, setItem fuel s k v = .error e → e = .outOfFuel) ∧
    (∀ s', setItem fuel s k v = .ok s' → Dense s') ∧
    (∀ e, removeItem fuel s k = .error e → e = .outOfFuel) ∧
    (∀ s', removeItem fuel s k = .ok s' → Dense s') ∧
    (getItem s k).2 = s ∧ (keyExists s k).2 = s := by
  refine ⟨((denseSpec fuel).1 s k v hd).1, ((denseSpec fuel).1 s k v hd).2,
    (dense_removeItem hd).1, (dense_removeItem hd).2, ?_, ?_⟩
  · rw [getItem_snd, dense_ensure k hd]
  · show (getItem s k).2 = s
    rw [getItem_snd, dense_ensure k hd]

theorem spec_C10_dense_total_witness :
    (∀ e, setItem 100 (construct 0) [97] [0] = .error e → e = .outOfFuel) ∧
    (∀ s', setItem 100 (construct 0) [97] [0] = .ok s' → Dense s') ∧
    (∀ e, removeItem 100 (construct 0) [97] = .error e → e = .outOfFuel) ∧
    (∀ s', removeItem 100 (construct 0) [97] = .ok s' → Dense s') ∧
    (getItem (construct 0) [97]).2 = construct 0 ∧
    (keyExists (construct 0) [97]).2 = construct 0 :=
  spec_C10_dense_total 100 (construct 0) [97] [0] (by unfold Dense; decide)

end Hashmap

end Bakery
